import Mathlib

/-!
# Disk and network reconciliation of the LXC resource

A shallow embedding of `processLxcDiskChanges`, `diskSlotName`,
`processDiskResize`, `processLxcNetworkChanges` and the `ValidateFunc` of the
`size` attribute from `proxmox/resource_lxc.go`.

* A Go `map[K]V` is an association list with first-match lookup; an
  assignment `m[k] = v` overwrites the entry of `k` or appends a new one.
* A Go `interface{}` attribute is a `Value`; reading an absent key gives
  `Value.null`, exactly as a Go map read gives the nil interface.
* The order in which a `for ... range` loop visits a map is not fixed by Go.
  Each loop of `processLxcDiskChanges` therefore receives the list of keys in
  the order in which that run visits them (`RangeOrder`).
* Every call to the Proxmox client is recorded in a trace.  The behaviour of
  the remote side is a parameter (`Remote`): it decides, from the calls made
  so far, whether the latest call fails and what `GetVmConfig` returns.
* A failed Go type assertion `x.(T)` panics, and so may the SDK function
  `FormatDiskParam`; the model reports `panicked`.
-/

namespace Proxmox

/-! ## Go values and maps -/

/-- The dynamic values an `interface{}` attribute of a device can hold;
`null` is the nil interface, which is also what reading an absent key gives. -/
inductive Value where
  | null
  | int (n : Int)
  | str (s : String)
  | bool (b : Bool)
  deriving DecidableEq, Repr

/-- The two-result map read `v, ok := m[k]`: `none` when `k` has no entry. -/
def mapLookup {κ α : Type} [DecidableEq κ] : List (κ × α) → κ → Option α
  | [], _ => none
  | (k', v) :: m, k => if k' = k then some v else mapLookup m k

/-- The map assignment `m[k] = v`. -/
def mapSet {κ α : Type} [DecidableEq κ] : List (κ × α) → κ → α → List (κ × α)
  | [], k, v => [(k, v)]
  | (k', v') :: m, k, v => if k' = k then (k, v) :: m else (k', v') :: mapSet m k v

/-- A device: `pveSDK.QemuDevice`, that is `map[string]interface{}`. -/
abbrev QemuDevice := List (String × Value)

/-- The one-result map read `d[k]`: the nil interface when `k` has no entry. -/
def attr (d : QemuDevice) (k : String) : Value :=
  (mapLookup d k).getD Value.null

/-- A device set: identity key to device.  The key is an `interface{}`
(the callers use the `key` attribute of a mountpoint, or `0` for the rootfs). -/
abbrev KeyedDeviceMap := List (Value × QemuDevice)

/-- The decimal rendering `strconv.Itoa`. -/
def Itoa (n : Int) : String := toString n

/-! ## Slot names -/

/-- Embedding of `diskSlotName`. -/
def diskSlotName (disk : QemuDevice) : String :=
  let diskType :=
    match attr disk "type" with
    | Value.str s => if s = "" then "mp" else s
    | _ => "mp"
  match attr disk "slot" with
  | Value.int diskSlot => diskType ++ Itoa diskSlot
  | _ => "rootfs"

/-! ## Remote calls -/

/-- One call to the Proxmox client.  The flag `lxc` is `vmr.GetVmType() == "lxc"`
and selects the LXC or the QEMU variant of the client method.
* `deleteDevices lxc names`: `Set{Lxc,Vm}Config` with `params["delete"] = names`;
* `setDevices lxc params`: `Set{Lxc,Vm}Config` with the slot-name keyed `newParams`;
* `moveDisk lxc slot storage`: `Move{Lxc,Qemu}Disk`;
* `resizeDisk slot size`: `ResizeQemuDiskRaw`;
* `getConfig`: `GetVmConfig`. -/
inductive RemoteOp where
  | deleteDevices (lxc : Bool) (names : String)
  | setDevices (lxc : Bool) (params : List (String × String))
  | moveDisk (lxc : Bool) (slot : String) (storage : String)
  | resizeDisk (slot : String) (size : String)
  | getConfig
  deriving DecidableEq, Repr

/-- How a run ends: `nil` error, a returned error, or a Go panic. -/
inductive Result where
  | ok
  | err (e : String)
  | panicked
  deriving DecidableEq, Repr

/-- The remote side.  `fails t` is asked right after a call was appended to the
trace `t` and gives the error of that call, if any; `config t` is what a
successful `GetVmConfig` returns after the calls `t`. -/
structure Remote where
  fails : List RemoteOp → Option String
  config : List RemoteOp → List (String × Value)

/-- The two functions of the Proxmox SDK the reconciler uses on device strings.
`FormatDiskParam` is partial: the SDK function panics on some devices (a `size`
without digits, for one), which is the result `none`. -/
structure SDK where
  FormatDiskParam : QemuDevice → Option String
  ParsePMConf : String → String → QemuDevice

/-- The visiting order of each of the four `range` loops over a device set. -/
structure RangeOrder where
  deleteOrder : List Value
  createOrder : List Value
  moveOrder : List Value
  volumeOrder : List Value

/-- Issue one remote call: append it to the trace and ask the remote side. -/
def issue (remote : Remote) (trace : List RemoteOp) (op : RemoteOp) :
    List RemoteOp × Result :=
  let trace := trace ++ [op]
  match remote.fails trace with
  | some e => (trace, Result.err e)
  | none => (trace, Result.ok)

/-! ## The disk reconciler -/

/-- The first loop of `processLxcDiskChanges`: collects `deleteDisks`. -/
def deleteLoop (prevDiskSet newDiskSet : KeyedDeviceMap) :
    List Value → List QemuDevice → List QemuDevice
  | [], deleteDisks => deleteDisks
  | key :: rest, deleteDisks =>
    match mapLookup prevDiskSet key with
    | none => deleteLoop prevDiskSet newDiskSet rest deleteDisks
    | some prevDisk =>
      match mapLookup newDiskSet key with
      | none => deleteLoop prevDiskSet newDiskSet rest (deleteDisks ++ [prevDisk])
      | some newDisk =>
        if diskSlotName newDisk = "rootfs" then
          deleteLoop prevDiskSet newDiskSet rest deleteDisks
        else if (attr newDisk "volume" ≠ Value.str ""
              ∧ attr prevDisk "volume" ≠ attr newDisk "volume")
            ∨ attr prevDisk "slot" ≠ attr newDisk "slot" then
          deleteLoop prevDiskSet newDiskSet rest (deleteDisks ++ [prevDisk])
        else
          deleteLoop prevDiskSet newDiskSet rest deleteDisks

/-- The slot names joined into `params["delete"]`. -/
def deleteDiskKeys (prevDiskSet newDiskSet : KeyedDeviceMap) (order : List Value) :
    List String :=
  (deleteLoop prevDiskSet newDiskSet order []).map diskSlotName

/-- The inheritance loop: every attribute of `prevDisk` that `newDisk` has no
entry for is copied into `newDisk`. -/
def inherit (newDisk prevDisk : QemuDevice) : QemuDevice :=
  prevDisk.foldl
    (fun nd kv =>
      match mapLookup nd kv.1 with
      | some _ => nd
      | none => mapSet nd kv.1 kv.2)
    newDisk

/-- The second loop of `processLxcDiskChanges`: builds `newParams` and updates
the devices of `newDiskSet` in place.  The first component is `none` when a
call of `FormatDiskParam` panics; the second is the device set as the loop left
it, at its end or at the panic. -/
def createLoop (sdk : SDK) (prevDiskSet : KeyedDeviceMap) :
    List Value → List (String × String) → KeyedDeviceMap →
      Option (List (String × String)) × KeyedDeviceMap
  | [], newParams, newDiskSet => (some newParams, newDiskSet)
  | key :: rest, newParams, newDiskSet =>
    match mapLookup newDiskSet key with
    | none => createLoop sdk prevDiskSet rest newParams newDiskSet
    | some newDisk =>
      let diskName := diskSlotName newDisk
      match mapLookup prevDiskSet key with
      | none =>
        match sdk.FormatDiskParam newDisk with
        | none => (none, newDiskSet)
        | some param =>
          createLoop sdk prevDiskSet rest (mapSet newParams diskName param) newDiskSet
      | some prevDisk =>
        let newDisk := inherit newDisk prevDisk
        let newDiskSet := mapSet newDiskSet key newDisk
        if attr newDisk "slot" ≠ attr prevDisk "slot" then
          match sdk.FormatDiskParam newDisk with
          | none => (none, newDiskSet)
          | some param =>
            createLoop sdk prevDiskSet rest (mapSet newParams diskName param) newDiskSet
        else
          createLoop sdk prevDiskSet rest newParams newDiskSet

/-- Embedding of `processDiskResize`. -/
def processDiskResize (remote : Remote) (prevDisk newDisk : QemuDevice)
    (diskName : String) (trace : List RemoteOp) : List RemoteOp × Result :=
  match mapLookup newDisk "size" with
  | none => (trace, Result.ok)
  | some newSize =>
    if newSize ≠ attr prevDisk "size" then
      match attr newDisk "size" with
      | Value.str size => issue remote trace (RemoteOp.resizeDisk diskName size)
      | _ => (trace, Result.panicked)
    else (trace, Result.ok)

/-- The move step of the third loop, for one key present in both sets. -/
def moveDisk (remote : Remote) (lxc : Bool) (prevDisk newDisk : QemuDevice)
    (trace : List RemoteOp) : List RemoteOp × Result :=
  match attr newDisk "storage" with
  | Value.str newStorage =>
    if Value.str newStorage ≠ attr prevDisk "storage" then
      issue remote trace (RemoteOp.moveDisk lxc (diskSlotName prevDisk) newStorage)
    else (trace, Result.ok)
  | _ => (trace, Result.ok)

/-- The third loop of `processLxcDiskChanges`: move, then resize, per key. -/
def moveResizeLoop (remote : Remote) (lxc : Bool) (prevDiskSet newDiskSet : KeyedDeviceMap) :
    List Value → List RemoteOp → List RemoteOp × Result
  | [], trace => (trace, Result.ok)
  | key :: rest, trace =>
    match mapLookup prevDiskSet key with
    | none => moveResizeLoop remote lxc prevDiskSet newDiskSet rest trace
    | some prevDisk =>
      match mapLookup newDiskSet key with
      | none => moveResizeLoop remote lxc prevDiskSet newDiskSet rest trace
      | some newDisk =>
        let diskName := diskSlotName newDisk
        match moveDisk remote lxc prevDisk newDisk trace with
        | (trace, Result.ok) =>
          match processDiskResize remote prevDisk newDisk diskName trace with
          | (trace, Result.ok) =>
            moveResizeLoop remote lxc prevDiskSet newDiskSet rest trace
          | aborted => aborted
        | aborted => aborted

/-- The fourth loop of `processLxcDiskChanges`: copies the remote `volume` into
every device of `newDiskSet`. -/
def volumeLoop (sdk : SDK) (apiResult : List (String × Value)) :
    List Value → KeyedDeviceMap → KeyedDeviceMap × Result
  | [], newDiskSet => (newDiskSet, Result.ok)
  | key :: rest, newDiskSet =>
    match mapLookup newDiskSet key with
    | none => volumeLoop sdk apiResult rest newDiskSet
    | some newDisk =>
      let diskName := diskSlotName newDisk
      match attr apiResult diskName with
      | Value.str apiConfigStr =>
        let apiDevice := sdk.ParsePMConf apiConfigStr "volume"
        volumeLoop sdk apiResult rest
          (mapSet newDiskSet key (mapSet newDisk "volume" (attr apiDevice "volume")))
      | _ => (newDiskSet, Result.panicked)

/-- What a run of the disk reconciler leaves behind: the remote calls it made,
how it ended, and the desired device set as mutated in place. -/
structure Outcome where
  trace : List RemoteOp
  result : Result
  newDiskSet : KeyedDeviceMap
  deriving DecidableEq, Repr

/-- The last block of `processLxcDiskChanges` ("Update Volume info"): reads the
remote configuration and runs the fourth loop. -/
def volumePhase (sdk : SDK) (remote : Remote) (order : RangeOrder)
    (newDiskSet : KeyedDeviceMap) (trace : List RemoteOp) : Outcome :=
  match issue remote trace RemoteOp.getConfig with
  | (trace, Result.ok) =>
    let apiResult := remote.config trace
    let updated := volumeLoop sdk apiResult order.volumeOrder newDiskSet
    ⟨trace, updated.2, updated.1⟩
  | (trace, aborted) => ⟨trace, aborted, newDiskSet⟩

/-- The block "Move and Resize Existing Disks" of `processLxcDiskChanges`,
followed by the rest of the function. -/
def movePhase (sdk : SDK) (remote : Remote) (lxc : Bool) (prevDiskSet : KeyedDeviceMap)
    (order : RangeOrder) (newDiskSet : KeyedDeviceMap) (trace : List RemoteOp) : Outcome :=
  match moveResizeLoop remote lxc prevDiskSet newDiskSet order.moveOrder trace with
  | (trace, Result.ok) => volumePhase sdk remote order newDiskSet trace
  | (trace, aborted) => ⟨trace, aborted, newDiskSet⟩

/-- The block "Create New Disks and Re-reference Slot-Changed Disks" of
`processLxcDiskChanges`, followed by the rest of the function.  A panic of
`FormatDiskParam` in the loop ends the run before the set call. -/
def createPhase (sdk : SDK) (remote : Remote) (lxc : Bool) (prevDiskSet : KeyedDeviceMap)
    (order : RangeOrder) (newDiskSet : KeyedDeviceMap) (trace : List RemoteOp) : Outcome :=
  let created := createLoop sdk prevDiskSet order.createOrder [] newDiskSet
  let newDiskSet := created.2
  match created.1 with
  | none => ⟨trace, Result.panicked, newDiskSet⟩
  | some newParams =>
    let set :=
      if newParams.length > 0 then issue remote trace (RemoteOp.setDevices lxc newParams)
      else (trace, Result.ok)
    match set with
    | (trace, Result.ok) => movePhase sdk remote lxc prevDiskSet order newDiskSet trace
    | (trace, aborted) => ⟨trace, aborted, newDiskSet⟩

/-- Embedding of `processLxcDiskChanges`: the delete block, followed by the
create, move/resize and volume blocks. -/
def processLxcDiskChanges (sdk : SDK) (remote : Remote) (lxc : Bool)
    (prevDiskSet newDiskSet : KeyedDeviceMap) (order : RangeOrder) : Outcome :=
  let deleteDisks := deleteLoop prevDiskSet newDiskSet order.deleteOrder []
  let deleted :=
    if deleteDisks.length > 0 then
      issue remote []
        (RemoteOp.deleteDevices lxc (", ".intercalate (deleteDisks.map diskSlotName)))
    else ([], Result.ok)
  match deleted with
  | (trace, Result.ok) => createPhase sdk remote lxc prevDiskSet order newDiskSet trace
  | (trace, aborted) => ⟨trace, aborted, newDiskSet⟩

/-! ## The network reconciler -/

/-- The inner loop of `processLxcNetworkChanges`: is `prevName` the id of some
entry of `newNetworks`?  `none` when an `id` type assertion panics. -/
def findNetwork (prevName : Int) : List QemuDevice → Option Bool
  | [] => some false
  | newNet :: rest =>
    match attr newNet "id" with
    | Value.int newName => if prevName = newName then some true else findNetwork prevName rest
    | _ => none

/-- The outer loop of `processLxcNetworkChanges`: collects `delNetworks`;
`none` when an `id` type assertion panics. -/
def delNetworksLoop (newNetworks : List QemuDevice) :
    List QemuDevice → List QemuDevice → Option (List QemuDevice)
  | [], delNetworks => some delNetworks
  | prevNet :: rest, delNetworks =>
    match attr prevNet "id" with
    | Value.int prevName =>
      match findNetwork prevName newNetworks with
      | some true => delNetworksLoop newNetworks rest delNetworks
      | some false => delNetworksLoop newNetworks rest (delNetworks ++ [prevNet])
      | none => none
    | _ => none

/-- The names joined into `params["delete"]` by `processLxcNetworkChanges`;
`none` when an `id` type assertion panics. -/
def deleteNetKeys : List QemuDevice → Option (List String)
  | [] => some []
  | net :: rest =>
    match attr net "id" with
    | Value.int id => (deleteNetKeys rest).map (fun keys => ("net" ++ Itoa id) :: keys)
    | _ => none

/-- Embedding of `processLxcNetworkChanges`: the remote calls made and how the
run ended. -/
def processLxcNetworkChanges (remote : Remote) (lxc : Bool)
    (prevNetworks newNetworks : List QemuDevice) : List RemoteOp × Result :=
  match delNetworksLoop newNetworks prevNetworks [] with
  | none => ([], Result.panicked)
  | some delNetworks =>
    if delNetworks.length > 0 then
      match deleteNetKeys delNetworks with
      | none => ([], Result.panicked)
      | some keys => issue remote [] (RemoteOp.deleteDevices lxc (", ".intercalate keys))
    else ([], Result.ok)

/-! ## The delete test and the kinds of calls -/

/-- The test of the first loop of `processLxcDiskChanges` on one key: the
previous device it appends to `deleteDisks`, if any. -/
def deleteCandidate (prevDiskSet newDiskSet : KeyedDeviceMap) (key : Value) : Option QemuDevice :=
  match mapLookup prevDiskSet key with
  | none => none
  | some prevDisk =>
    match mapLookup newDiskSet key with
    | none => some prevDisk
    | some newDisk =>
      if diskSlotName newDisk = "rootfs" then none
      else if (attr newDisk "volume" ≠ Value.str ""
            ∧ attr prevDisk "volume" ≠ attr newDisk "volume")
          ∨ attr prevDisk "slot" ≠ attr newDisk "slot" then some prevDisk
      else none

/-- Is the call a delete call? -/
def RemoteOp.isDelete : RemoteOp → Bool
  | RemoteOp.deleteDevices _ _ => true
  | _ => false

/-- Is the call a create/set call? -/
def RemoteOp.isSet : RemoteOp → Bool
  | RemoteOp.setDevices _ _ => true
  | _ => false

/-- Is the call a move-disk call? -/
def RemoteOp.isMove : RemoteOp → Bool
  | RemoteOp.moveDisk _ _ _ => true
  | _ => false

/-- Is the call a resize call? -/
def RemoteOp.isResize : RemoteOp → Bool
  | RemoteOp.resizeDisk _ _ => true
  | _ => false

/-! ## Definitions used to state the properties -/

/-- The move-disk call the third loop makes for one key present in both sets,
as a list (empty when it makes none). -/
def moveCalls (lxc : Bool) (prevDisk newDisk : QemuDevice) : List RemoteOp :=
  match attr newDisk "storage" with
  | Value.str newStorage =>
    if Value.str newStorage ≠ attr prevDisk "storage" then
      [RemoteOp.moveDisk lxc (diskSlotName prevDisk) newStorage]
    else []
  | _ => []

/-- The resize call `processDiskResize` makes, as a list (empty when it makes
none or panics). -/
def resizeCalls (prevDisk newDisk : QemuDevice) (diskName : String) : List RemoteOp :=
  match mapLookup newDisk "size" with
  | none => []
  | some newSize =>
    if newSize ≠ attr prevDisk "size" then
      match newSize with
      | Value.str size => [RemoteOp.resizeDisk diskName size]
      | _ => []
    else []

/-- The calls of one iteration of the third loop. -/
def keyCalls (lxc : Bool) (prevDiskSet newDiskSet : KeyedDeviceMap) (key : Value) :
    List RemoteOp :=
  match mapLookup prevDiskSet key, mapLookup newDiskSet key with
  | some prevDisk, some newDisk =>
    moveCalls lxc prevDisk newDisk ++ resizeCalls prevDisk newDisk (diskSlotName newDisk)
  | _, _ => []

/-- The desired device of `key` after inheritance from the previous device of
the same key, if there is one. -/
def mergedDevice (prevDiskSet : KeyedDeviceMap) (key : Value) (newDisk : QemuDevice) :
    QemuDevice :=
  match mapLookup prevDiskSet key with
  | some prevDisk => inherit newDisk prevDisk
  | none => newDisk

/-- Is the value a string? -/
def Value.isStr : Value → Bool
  | Value.str _ => true
  | _ => false

/-- The string held by a value (empty for a value that is not a string). -/
def Value.asString : Value → String
  | Value.str s => s
  | _ => ""

/-- Every entry named `name` of every device of the set holds a string. -/
def AttrIsString (name : String) (diskSet : KeyedDeviceMap) : Prop :=
  ∀ e ∈ diskSet, ∀ a ∈ e.2, a.1 = name → a.2.isStr = true

instance (name : String) (diskSet : KeyedDeviceMap) : Decidable (AttrIsString name diskSet) :=
  inferInstanceAs (Decidable (∀ e ∈ diskSet, ∀ a ∈ e.2, a.1 = name → a.2.isStr = true))

/-- The move phase in the words of the specification: for a key present in
both sets whose merged desired `storage` differs from the previous `storage`,
one move-disk call naming the previous slot-name and the desired storage. -/
def expectedMove (lxc : Bool) (prevDiskSet newDiskSet : KeyedDeviceMap) (key : Value) :
    Option RemoteOp :=
  match mapLookup prevDiskSet key, mapLookup newDiskSet key with
  | some prevDisk, some newDisk =>
    if attr (inherit newDisk prevDisk) "storage" ≠ attr prevDisk "storage" then
      some (RemoteOp.moveDisk lxc (diskSlotName prevDisk)
        (attr (inherit newDisk prevDisk) "storage").asString)
    else none
  | _, _ => none

/-- A remote side on which every call succeeds and whose configuration is
always `config`. -/
def Remote.succeeding (config : List (String × Value)) : Remote :=
  ⟨fun _ => none, fun _ => config⟩

/-- A stand-in for the SDK in examples: a device is encoded as the
comma-joined list of its attribute names, except that a device whose `size` is
a string without any digit cannot be encoded (the panic of the SDK), and a
device string decodes to a device whose only attribute is the string itself. -/
def sampleSDK : SDK :=
  ⟨fun d =>
      match attr d "size" with
      | Value.str size =>
        if size.data.any Char.isDigit then some (",".intercalate (d.map (fun kv => kv.1)))
        else none
      | _ => some (",".intercalate (d.map (fun kv => kv.1))),
    fun s key => [(key, Value.str s)]⟩

/-- A visiting order that uses `prevKeys` for the loops over the previous set
and `newKeys` for the loops over the desired set. -/
def RangeOrder.ofKeys (prevKeys newKeys : List Value) : RangeOrder :=
  ⟨prevKeys, newKeys, prevKeys, newKeys⟩

/-! ## Example device sets -/

/-- Two mount points `mp0` and `mp1` with their volumes. -/
def examplePrevious : KeyedDeviceMap :=
  [(Value.str "a", [("slot", Value.int 0), ("volume", Value.str "vol-1")]),
   (Value.str "b", [("slot", Value.int 1), ("volume", Value.str "vol-2")])]

/-- The same two keys: `a` asks for another volume, `b` leaves its volume empty. -/
def exampleDesired : KeyedDeviceMap :=
  [(Value.str "a", [("slot", Value.int 0), ("volume", Value.str "vol-9")]),
   (Value.str "b", [("slot", Value.int 1), ("volume", Value.str "")])]

/-- Three mount points `mp0`, `mp1`, `mp2`. -/
def exampleThree : KeyedDeviceMap :=
  [(Value.str "a", [("slot", Value.int 0)]),
   (Value.str "b", [("slot", Value.int 1)]),
   (Value.str "c", [("slot", Value.int 2)])]

/-! ## The resize phase and the size validator -/

/-- The resize phase in the words of the specification: for a key present in
both sets whose merged desired `size` differs from the previous `size`, one
resize call naming the slot-name of the merged desired device and the desired
size. -/
def expectedResize (prevDiskSet newDiskSet : KeyedDeviceMap) (key : Value) : Option RemoteOp :=
  match mapLookup prevDiskSet key, mapLookup newDiskSet key with
  | some prevDisk, some newDisk =>
    if attr (inherit newDisk prevDisk) "size" ≠ attr prevDisk "size" then
      some (RemoteOp.resizeDisk (diskSlotName (inherit newDisk prevDisk))
        (attr (inherit newDisk prevDisk) "size").asString)
    else none
  | _, _ => none

/-- Does the list `sub` occur in the list `s` as a block? -/
def containsChars : List Char → List Char → Bool
  | [], sub => sub.isPrefixOf []
  | c :: s, sub => sub.isPrefixOf (c :: s) || containsChars s sub

/-- The Go function `strings.Contains`. -/
def stringsContains (s substr : String) : Bool :=
  containsChars s.data substr.data

/-- Embedding of the `ValidateFunc` of the `size` attribute, the same function
in the `mountpoint` and in the `rootfs` schema: the list `errs` it returns for
the string `v`. -/
def sizeValidateFunc (v : String) : List String :=
  if !(stringsContains v "T" || stringsContains v "G" || stringsContains v "M"
      || stringsContains v "K") then
    ["disk size must end in T, G, M, or K, got " ++ v]
  else []

/-- The size format of the specification, `<positive integer><unit>` with the
unit one of T, G, M, K: a non-empty run of decimal digits that is not all
zeros, followed by exactly one unit letter. -/
def isSizeFormat (v : String) : Bool :=
  match v.data.reverse with
  | [] => false
  | unit :: digits =>
    (unit == 'T' || unit == 'G' || unit == 'M' || unit == 'K')
      && !digits.isEmpty && digits.all Char.isDigit && digits.any (fun c => c != '0')

/-! ## Failures and the reconfirmation read -/

/-- Every call made after the calls `start` that fails is the last call of
`trace`, and its error is the `result`. -/
def AbortsOnFailure (remote : Remote) (start trace : List RemoteOp) (result : Result) : Prop :=
  start <+: trace ∧
  ∀ t op e, start <+: t → (t ++ [op]) <+: trace → remote.fails (t ++ [op]) = some e →
    trace = t ++ [op] ∧ result = Result.err e

/-- The volume the remote configuration `apiResult` reports for a device: the
`volume` decoded from the entry found at its slot-name. -/
def remoteVolume (sdk : SDK) (apiResult : List (String × Value)) (disk : QemuDevice) : Value :=
  attr (sdk.ParsePMConf (attr apiResult (diskSlotName disk)).asString "volume") "volume"

/-- A remote side on which the `n`-th call of a run fails with the error
`e` and every other call succeeds; its configuration is always `config`. -/
def Remote.failingAt (n : Nat) (e : String) (config : List (String × Value)) : Remote :=
  ⟨fun t => if t.length = n then some e else none, fun _ => config⟩

/-! ## Maps and inheritance -/

theorem mapLookup_mapSet {κ α : Type} [DecidableEq κ] (m : List (κ × α)) (k k' : κ) (v : α) :
    mapLookup (mapSet m k v) k' = if k = k' then some v else mapLookup m k' := by
  induction m with
  | nil => simp [mapSet, mapLookup]
  | cons e m ih =>
    obtain ⟨a, b⟩ := e
    by_cases h : a = k
    · subst h
      by_cases h' : a = k' <;> simp [mapSet, mapLookup, h']
    · by_cases h' : a = k'
      · subst h'
        simp [mapSet, mapLookup, h, Ne.symm h]
      · simp [mapSet, mapLookup, h, h', ih]

theorem mapSet_of_lookup {κ α : Type} [DecidableEq κ] (m : List (κ × α)) (k : κ) (v : α)
    (h : mapLookup m k = some v) : mapSet m k v = m := by
  induction m with
  | nil => simp [mapLookup] at h
  | cons e m ih =>
    obtain ⟨a, b⟩ := e
    by_cases hk : a = k
    · subst hk
      simp [mapLookup] at h
      simp [mapSet, h]
    · simp [mapLookup, hk] at h
      simp [mapSet, hk, ih h]

theorem mapLookup_inheritFold (prevDisk : QemuDevice) :
    ∀ (newDisk : QemuDevice) (a : String),
      mapLookup
          (prevDisk.foldl
            (fun nd kv =>
              match mapLookup nd kv.1 with
              | some _ => nd
              | none => mapSet nd kv.1 kv.2)
            newDisk) a
        = match mapLookup newDisk a with
          | some v => some v
          | none => mapLookup prevDisk a := by
  induction prevDisk with
  | nil => intro newDisk a; cases h : mapLookup newDisk a <;> simp [mapLookup, h]
  | cons e p ih =>
    obtain ⟨k, v⟩ := e
    intro newDisk a
    simp only [List.foldl_cons]
    rw [ih]
    cases hk : mapLookup newDisk k with
    | some w =>
      simp only
      cases ha : mapLookup newDisk a with
      | some x => rfl
      | none =>
        have : k ≠ a := by rintro rfl; rw [hk] at ha; cases ha
        simp [mapLookup, this]
    | none =>
      simp only [mapLookup_mapSet]
      by_cases hka : k = a
      · subst hka
        simp [hk, mapLookup]
      · simp [hka, mapLookup]

theorem mapLookup_inherit (newDisk prevDisk : QemuDevice) (a : String) :
    mapLookup (inherit newDisk prevDisk) a
      = match mapLookup newDisk a with
        | some v => some v
        | none => mapLookup prevDisk a :=
  mapLookup_inheritFold prevDisk newDisk a

theorem inheritFold_covered (prevDisk : QemuDevice) :
    ∀ (newDisk : QemuDevice),
      (∀ kv ∈ prevDisk, ∃ v, mapLookup newDisk kv.1 = some v) →
      prevDisk.foldl
          (fun nd kv =>
            match mapLookup nd kv.1 with
            | some _ => nd
            | none => mapSet nd kv.1 kv.2)
          newDisk = newDisk := by
  induction prevDisk with
  | nil => intro _ _; rfl
  | cons e p ih =>
    intro newDisk h
    obtain ⟨v, hv⟩ := h e (List.mem_cons_self _ _)
    simp only [List.foldl_cons, hv]
    exact ih newDisk (fun kv hkv => h kv (List.mem_cons_of_mem _ hkv))

theorem mapLookup_of_mem {κ α : Type} [DecidableEq κ] (m : List (κ × α)) (e : κ × α)
    (h : e ∈ m) : ∃ v, mapLookup m e.1 = some v := by
  induction m with
  | nil => cases h
  | cons x m ih =>
    obtain ⟨a, b⟩ := x
    by_cases hk : a = e.1
    · exact ⟨b, by simp [mapLookup, hk]⟩
    · rcases List.mem_cons.1 h with rfl | h'
      · exact absurd rfl hk
      · obtain ⟨v, hv⟩ := ih h'
        exact ⟨v, by simp [mapLookup, hk, hv]⟩

theorem inherit_self (d : QemuDevice) : inherit d d = d :=
  inheritFold_covered d d (fun kv h => mapLookup_of_mem d kv h)

theorem attr_inherit (newDisk prevDisk : QemuDevice) (a : String) :
    attr (inherit newDisk prevDisk) a
      = match mapLookup newDisk a with
        | some v => v
        | none => attr prevDisk a := by
  unfold attr
  rw [mapLookup_inherit]
  cases mapLookup newDisk a <;> rfl

/-! ## The shape of the trace -/

theorem deleteLoop_eq (prev new : KeyedDeviceMap) (order : List Value) :
    ∀ acc, deleteLoop prev new order acc = acc ++ order.filterMap (deleteCandidate prev new) := by
  induction order with
  | nil => intro acc; simp [deleteLoop]
  | cons key rest ih =>
    intro acc
    unfold deleteLoop
    cases hp : mapLookup prev key with
    | none => simp [ih, List.filterMap_cons, deleteCandidate, hp]
    | some p =>
      cases hn : mapLookup new key with
      | none => simp [ih, List.filterMap_cons, deleteCandidate, hp, hn]
      | some d =>
        simp only []
        by_cases hr : diskSlotName d = "rootfs"
        · simp [ih, List.filterMap_cons, deleteCandidate, hp, hn, hr]
        · by_cases hc : (attr d "volume" ≠ Value.str "" ∧ attr p "volume" ≠ attr d "volume")
              ∨ attr p "slot" ≠ attr d "slot"
          · rw [if_neg hr, if_pos hc, ih]
            simp [List.filterMap_cons, deleteCandidate, hp, hn, hr, hc]
          · rw [if_neg hr, if_neg hc, ih]
            simp [List.filterMap_cons, deleteCandidate, hp, hn, hr, hc]

theorem issue_trace (remote : Remote) (t : List RemoteOp) (op : RemoteOp) :
    (issue remote t op).1 = t ++ [op] := by
  simp only [issue]
  cases remote.fails (t ++ [op]) <;> rfl

theorem processDiskResize_trace (remote : Remote) (p d : QemuDevice) (n : String)
    (t : List RemoteOp) :
    ∃ ops, (processDiskResize remote p d n t).1 = t ++ ops
      ∧ ∀ op ∈ ops, op.isResize = true := by
  unfold processDiskResize
  cases mapLookup d "size" with
  | none => exact ⟨[], by simp⟩
  | some v =>
    simp only []
    by_cases h : v ≠ attr p "size"
    · rw [if_pos h]
      cases attr d "size" with
      | str s => exact ⟨[RemoteOp.resizeDisk n s], by simp [issue_trace, RemoteOp.isResize]⟩
      | _ => exact ⟨[], by simp⟩
    · rw [if_neg h]; exact ⟨[], by simp⟩

theorem moveDisk_trace (remote : Remote) (lxc : Bool) (p d : QemuDevice) (t : List RemoteOp) :
    ∃ ops, (moveDisk remote lxc p d t).1 = t ++ ops ∧ ∀ op ∈ ops, op.isMove = true := by
  unfold moveDisk
  cases attr d "storage" with
  | str s =>
    simp only []
    by_cases h : Value.str s ≠ attr p "storage"
    · rw [if_pos h]
      exact ⟨[RemoteOp.moveDisk lxc (diskSlotName p) s], by simp [issue_trace, RemoteOp.isMove]⟩
    · rw [if_neg h]; exact ⟨[], by simp⟩
  | _ => exact ⟨[], by simp⟩

theorem moveResizeLoop_trace (remote : Remote) (lxc : Bool) (prev new : KeyedDeviceMap)
    (order : List Value) :
    ∀ t, ∃ ops, (moveResizeLoop remote lxc prev new order t).1 = t ++ ops
      ∧ ∀ op ∈ ops, op.isMove = true ∨ op.isResize = true := by
  induction order with
  | nil => intro t; exact ⟨[], by simp [moveResizeLoop]⟩
  | cons key rest ih =>
    intro t
    unfold moveResizeLoop
    cases mapLookup prev key with
    | none => exact ih t
    | some p =>
      cases mapLookup new key with
      | none => exact ih t
      | some d =>
        simp only []
        obtain ⟨m, hm, hmo⟩ := moveDisk_trace remote lxc p d t
        rcases hmd : moveDisk remote lxc p d t with ⟨t1, r1⟩
        rw [hmd] at hm
        simp only at hm
        subst hm
        have hleft : ∀ op ∈ m, op.isMove = true ∨ op.isResize = true :=
          fun op h => Or.inl (hmo op h)
        cases r1 with
        | ok =>
          simp only []
          obtain ⟨z, hz, hzo⟩ := processDiskResize_trace remote p d (diskSlotName d) (t ++ m)
          rcases hrd : processDiskResize remote p d (diskSlotName d) (t ++ m) with ⟨t2, r2⟩
          rw [hrd] at hz
          simp only at hz
          subst hz
          have hmid : ∀ op ∈ m ++ z, op.isMove = true ∨ op.isResize = true := by
            intro op h
            rcases List.mem_append.1 h with h | h
            · exact hleft op h
            · exact Or.inr (hzo op h)
          cases r2 with
          | ok =>
            simp only []
            obtain ⟨w, hw, hwo⟩ := ih (t ++ m ++ z)
            refine ⟨m ++ z ++ w, by rw [hw]; simp [List.append_assoc], ?_⟩
            intro op h
            rcases List.mem_append.1 h with h | h
            · exact hmid op h
            · exact hwo op h
          | err e => exact ⟨m ++ z, by simp [List.append_assoc], hmid⟩
          | panicked => exact ⟨m ++ z, by simp [List.append_assoc], hmid⟩
        | err e => exact ⟨m, rfl, hleft⟩
        | panicked => exact ⟨m, rfl, hleft⟩

/-! ## Runs on a remote side that never fails -/

theorem issue_eq (remote : Remote) (t : List RemoteOp) (op : RemoteOp) :
    issue remote t op
      = (t ++ [op], match remote.fails (t ++ [op]) with
                    | some e => Result.err e
                    | none => Result.ok) := by
  simp only [issue]
  cases remote.fails (t ++ [op]) <;> rfl

theorem issue_success (remote : Remote) (hr : ∀ t, remote.fails t = none)
    (t : List RemoteOp) (op : RemoteOp) : issue remote t op = (t ++ [op], Result.ok) := by
  rw [issue_eq, hr]

theorem attr_of_lookup (d : QemuDevice) (a : String) (v : Value)
    (h : mapLookup d a = some v) : attr d a = v := by
  simp [attr, h]

theorem moveDisk_success (remote : Remote) (hr : ∀ t, remote.fails t = none) (lxc : Bool)
    (p d : QemuDevice) (t : List RemoteOp) :
    moveDisk remote lxc p d t = (t ++ moveCalls lxc p d, Result.ok) := by
  unfold moveDisk moveCalls
  cases attr d "storage" with
  | str s =>
    simp only []
    by_cases h : Value.str s ≠ attr p "storage"
    · rw [if_pos h, if_pos h, issue_success remote hr]
    · rw [if_neg h, if_neg h, List.append_nil]
  | _ => simp

theorem processDiskResize_success (remote : Remote) (hr : ∀ t, remote.fails t = none)
    (p d : QemuDevice) (n : String) (t : List RemoteOp)
    (hs : ∀ v, mapLookup d "size" = some v → v ≠ attr p "size" → ∃ s, v = Value.str s) :
    processDiskResize remote p d n t = (t ++ resizeCalls p d n, Result.ok) := by
  unfold processDiskResize resizeCalls
  cases hv : mapLookup d "size" with
  | none => simp
  | some v =>
    simp only []
    by_cases h : v ≠ attr p "size"
    · obtain ⟨s, rfl⟩ := hs v hv h
      rw [if_pos h, if_pos h, attr_of_lookup d "size" _ hv]
      simp only []
      rw [issue_success remote hr]
    · rw [if_neg h, if_neg h, List.append_nil]

theorem moveResizeLoop_success (remote : Remote) (hr : ∀ t, remote.fails t = none)
    (lxc : Bool) (prev new : KeyedDeviceMap)
    (hs : ∀ key p d v, mapLookup prev key = some p → mapLookup new key = some d →
      mapLookup d "size" = some v → v ≠ attr p "size" → ∃ s, v = Value.str s)
    (order : List Value) :
    ∀ t, moveResizeLoop remote lxc prev new order t
      = (t ++ order.flatMap (keyCalls lxc prev new), Result.ok) := by
  induction order with
  | nil => intro t; simp [moveResizeLoop]
  | cons key rest ih =>
    intro t
    unfold moveResizeLoop
    cases hp : mapLookup prev key with
    | none => simp [ih, keyCalls, hp]
    | some p =>
      cases hn : mapLookup new key with
      | none => simp [ih, keyCalls, hp, hn]
      | some d =>
        simp only []
        rw [moveDisk_success remote hr]
        simp only []
        rw [processDiskResize_success remote hr p d _ _ (fun v hv hne => hs key p d v hp hn hv hne)]
        simp only []
        rw [ih]
        simp [keyCalls, hp, hn, List.append_assoc]

/-! ## The create loop -/

theorem inherit_idem (d p : QemuDevice) : inherit (inherit d p) p = inherit d p := by
  apply inheritFold_covered
  intro kv hkv
  rw [mapLookup_inherit]
  cases h : mapLookup d kv.1 with
  | some v => exact ⟨v, rfl⟩
  | none => exact mapLookup_of_mem p kv hkv

theorem mergedDevice_idem (prev : KeyedDeviceMap) (k : Value) (d : QemuDevice) :
    mergedDevice prev k (mergedDevice prev k d) = mergedDevice prev k d := by
  unfold mergedDevice
  cases mapLookup prev k with
  | none => rfl
  | some p => exact inherit_idem d p

theorem createLoop_lookup (sdk : SDK) (prev : KeyedDeviceMap) (order : List Value) (k : Value) :
    ∀ (params : List (String × String)) (s : KeyedDeviceMap),
      (createLoop sdk prev order params s).1 ≠ none →
      mapLookup (createLoop sdk prev order params s).2 k
        = if k ∈ order then (mapLookup s k).map (mergedDevice prev k) else mapLookup s k := by
  induction order with
  | nil => intro params s _; simp [createLoop]
  | cons key rest ih =>
    intro params s
    unfold createLoop
    cases hn : mapLookup s key with
    | none =>
      simp only []
      intro hdone
      rw [ih params s hdone]
      by_cases hk : k = key
      · subst hk; simp [hn]
      · simp [hk]
    | some d =>
      cases hp : mapLookup prev key with
      | none =>
        simp only []
        cases hf : sdk.FormatDiskParam d with
        | none => intro hdone; exact absurd rfl hdone
        | some param =>
          simp only []
          intro hdone
          rw [ih _ s hdone]
          by_cases hk : k = key
          · subst hk; simp [hn, mergedDevice, hp]
          · simp [hk]
      | some p =>
        simp only []
        have hstate : ∀ ps, (createLoop sdk prev rest ps (mapSet s key (inherit d p))).1 ≠ none →
            mapLookup (createLoop sdk prev rest ps (mapSet s key (inherit d p))).2 k
            = if k ∈ key :: rest then (mapLookup s k).map (mergedDevice prev k)
              else mapLookup s k := by
          intro ps hdone
          rw [ih _ _ hdone, mapLookup_mapSet]
          by_cases hk : key = k
          · subst hk
            have hm : mergedDevice prev key d = inherit d p := by simp [mergedDevice, hp]
            have hm2 : mergedDevice prev key (inherit d p) = inherit d p := by
              rw [← hm, mergedDevice_idem]
            by_cases hr : key ∈ rest <;> simp [hr, hn, hm, hm2]
          · have hk' : k ≠ key := fun h => hk h.symm
            simp [hk, hk']
        by_cases hc : attr (inherit d p) "slot" ≠ attr p "slot"
        · rw [if_pos hc]
          cases hf : sdk.FormatDiskParam (inherit d p) with
          | none => intro hdone; exact absurd rfl hdone
          | some param => simp only []; exact hstate _
        · rw [if_neg hc]; exact hstate _

theorem createLoop_keeps (sdk : SDK) (prev : KeyedDeviceMap) (order : List Value) (n : String) :
    ∀ (params : List (String × String)) (s : KeyedDeviceMap) (ps : List (String × String)),
      mapLookup params n ≠ none →
      (createLoop sdk prev order params s).1 = some ps →
      mapLookup ps n ≠ none := by
  induction order with
  | nil =>
    intro params s ps h hps
    simp only [createLoop, Option.some.injEq] at hps
    subst hps
    exact h
  | cons key rest ih =>
    intro params s ps h
    have hset : ∀ m v, mapLookup (mapSet params m v) n ≠ none := by
      intro m v
      rw [mapLookup_mapSet]
      by_cases hm : m = n
      · simp [hm]
      · simpa [hm] using h
    unfold createLoop
    cases mapLookup s key with
    | none => exact ih params s ps h
    | some d =>
      cases mapLookup prev key with
      | none =>
        simp only []
        cases sdk.FormatDiskParam d with
        | none => intro hps; cases hps
        | some param => exact ih _ _ ps (hset _ _)
      | some p =>
        simp only []
        by_cases hc : attr (inherit d p) "slot" ≠ attr p "slot"
        · rw [if_pos hc]
          cases sdk.FormatDiskParam (inherit d p) with
          | none => intro hps; cases hps
          | some param => exact ih _ _ ps (hset _ _)
        · rw [if_neg hc]; exact ih _ _ ps h

theorem createLoop_creates (sdk : SDK) (prev : KeyedDeviceMap) (k : Value) (d : QemuDevice)
    (hc : ∀ p, mapLookup prev k = some p → attr (inherit d p) "slot" ≠ attr p "slot")
    (order : List Value) :
    ∀ (params : List (String × String)) (s : KeyedDeviceMap) (ps : List (String × String)),
      k ∈ order → mapLookup s k = some d →
      (createLoop sdk prev order params s).1 = some ps →
      mapLookup ps (diskSlotName d) ≠ none := by
  induction order with
  | nil => intro params s ps hk; cases hk
  | cons key rest ih =>
    intro params s ps hk hs
    by_cases hkey : key = k
    · subst hkey
      unfold createLoop
      rw [hs]
      cases hp : mapLookup prev key with
      | none =>
        simp only []
        cases sdk.FormatDiskParam d with
        | none => intro hps; cases hps
        | some param =>
          simp only []
          apply createLoop_keeps
          simp [mapLookup_mapSet]
      | some p =>
        simp only []
        rw [if_pos (hc p hp)]
        cases sdk.FormatDiskParam (inherit d p) with
        | none => intro hps; cases hps
        | some param =>
          simp only []
          apply createLoop_keeps
          simp [mapLookup_mapSet]
    · have hk' : k ∈ rest := by
        rcases List.mem_cons.1 hk with h | h
        · exact absurd h.symm hkey
        · exact h
      unfold createLoop
      cases hn : mapLookup s key with
      | none => exact ih params s ps hk' hs
      | some d' =>
        cases hp : mapLookup prev key with
        | none =>
          simp only []
          cases sdk.FormatDiskParam d' with
          | none => intro hps; cases hps
          | some param => exact ih _ s ps hk' hs
        | some p =>
          simp only []
          have hs' : mapLookup (mapSet s key (inherit d' p)) k = some d := by
            rw [mapLookup_mapSet]; simp [hkey, hs]
          by_cases hcc : attr (inherit d' p) "slot" ≠ attr p "slot"
          · rw [if_pos hcc]
            cases sdk.FormatDiskParam (inherit d' p) with
            | none => intro hps; cases hps
            | some param => exact ih _ _ ps hk' hs'
          · rw [if_neg hcc]; exact ih _ _ ps hk' hs'

/-! ## The phases -/

theorem volumePhase_trace (sdk : SDK) (remote : Remote) (order : RangeOrder)
    (s : KeyedDeviceMap) (t : List RemoteOp) :
    (volumePhase sdk remote order s t).trace = t ++ [RemoteOp.getConfig] := by
  unfold volumePhase
  rw [issue_eq]
  cases remote.fails (t ++ [RemoteOp.getConfig]) <;> rfl

theorem movePhase_trace (sdk : SDK) (remote : Remote) (lxc : Bool) (prev : KeyedDeviceMap)
    (order : RangeOrder) (s : KeyedDeviceMap) (t : List RemoteOp) :
    ∃ M G, (movePhase sdk remote lxc prev order s t).trace = t ++ M ++ G
      ∧ (∀ op ∈ M, op.isMove = true ∨ op.isResize = true)
      ∧ (G = [] ∨ G = [RemoteOp.getConfig]) := by
  obtain ⟨M, hM, hMo⟩ := moveResizeLoop_trace remote lxc prev s order.moveOrder t
  unfold movePhase
  rcases hl : moveResizeLoop remote lxc prev s order.moveOrder t with ⟨t1, r1⟩
  rw [hl] at hM
  simp only at hM
  subst hM
  cases r1 with
  | ok => exact ⟨M, [RemoteOp.getConfig], by simp [volumePhase_trace], hMo, Or.inr rfl⟩
  | err e => exact ⟨M, [], by simp, hMo, Or.inl rfl⟩
  | panicked => exact ⟨M, [], by simp, hMo, Or.inl rfl⟩

theorem movePhase_success (sdk : SDK) (remote : Remote) (hr : ∀ t, remote.fails t = none)
    (lxc : Bool) (prev : KeyedDeviceMap) (order : RangeOrder) (s : KeyedDeviceMap)
    (hs : ∀ key p d v, mapLookup prev key = some p → mapLookup s key = some d →
      mapLookup d "size" = some v → v ≠ attr p "size" → ∃ z, v = Value.str z)
    (t : List RemoteOp) :
    (movePhase sdk remote lxc prev order s t).trace
      = t ++ order.moveOrder.flatMap (keyCalls lxc prev s) ++ [RemoteOp.getConfig] := by
  unfold movePhase
  rw [moveResizeLoop_success remote hr lxc prev s hs]
  simp only []
  rw [volumePhase_trace]

theorem createPhase_trace (sdk : SDK) (remote : Remote) (lxc : Bool) (prev : KeyedDeviceMap)
    (order : RangeOrder) (new : KeyedDeviceMap) (t : List RemoteOp) :
    ∃ S M G, (createPhase sdk remote lxc prev order new t).trace = t ++ S ++ M ++ G
      ∧ (S = [] ∨ ∃ params, (createLoop sdk prev order.createOrder [] new).1 = some params
          ∧ S = [RemoteOp.setDevices lxc params])
      ∧ (∀ op ∈ M, op.isMove = true ∨ op.isResize = true)
      ∧ (G = [] ∨ G = [RemoteOp.getConfig]) := by
  unfold createPhase
  simp only []
  cases hcl : (createLoop sdk prev order.createOrder [] new).1 with
  | none => exact ⟨[], [], [], by simp, Or.inl rfl, by simp, Or.inl rfl⟩
  | some params =>
    simp only []
    by_cases hlen : params.length > 0
    · rw [if_pos hlen, issue_eq]
      cases remote.fails (t ++ [RemoteOp.setDevices lxc params]) with
      | some e =>
        exact ⟨_, [], [], by simp, Or.inr ⟨params, rfl, rfl⟩, by simp, Or.inl rfl⟩
      | none =>
        simp only []
        obtain ⟨M, G, h, hM, hG⟩ := movePhase_trace sdk remote lxc prev order
          (createLoop sdk prev order.createOrder [] new).2
          (t ++ [RemoteOp.setDevices lxc params])
        exact ⟨_, M, G, h, Or.inr ⟨params, rfl, rfl⟩, hM, hG⟩
    · rw [if_neg hlen]
      simp only []
      obtain ⟨M, G, h, hM, hG⟩ := movePhase_trace sdk remote lxc prev order
        (createLoop sdk prev order.createOrder [] new).2 t
      exact ⟨[], M, G, by simpa using h, Or.inl rfl, hM, hG⟩

theorem processLxcDiskChanges_trace (sdk : SDK) (remote : Remote) (lxc : Bool)
    (prev new : KeyedDeviceMap) (order : RangeOrder) :
    ∃ D S M G, (processLxcDiskChanges sdk remote lxc prev new order).trace = D ++ S ++ M ++ G
      ∧ D = (if order.deleteOrder.filterMap (deleteCandidate prev new) = [] then []
             else [RemoteOp.deleteDevices lxc (", ".intercalate
                    ((order.deleteOrder.filterMap (deleteCandidate prev new)).map diskSlotName))])
      ∧ (S = [] ∨ ∃ params, (createLoop sdk prev order.createOrder [] new).1 = some params
          ∧ S = [RemoteOp.setDevices lxc params])
      ∧ (∀ op ∈ M, op.isMove = true ∨ op.isResize = true)
      ∧ (G = [] ∨ G = [RemoteOp.getConfig]) := by
  unfold processLxcDiskChanges
  simp only [deleteLoop_eq, List.nil_append]
  by_cases hq : order.deleteOrder.filterMap (deleteCandidate prev new) = []
  · rw [if_pos hq]
    simp only [hq, List.length_nil, gt_iff_lt, lt_self_iff_false, if_false]
    obtain ⟨S, M, G, h, hS, hM, hG⟩ := createPhase_trace sdk remote lxc prev order new []
    exact ⟨[], S, M, G, h, rfl, hS, hM, hG⟩
  · rw [if_neg hq]
    have hlen : (order.deleteOrder.filterMap (deleteCandidate prev new)).length > 0 :=
      List.length_pos.2 hq
    rw [if_pos hlen, issue_eq]
    cases remote.fails ([] ++ [RemoteOp.deleteDevices lxc (", ".intercalate
        ((order.deleteOrder.filterMap (deleteCandidate prev new)).map diskSlotName))]) with
    | some e => exact ⟨_, [], [], [], by simp, rfl, Or.inl rfl, by simp, Or.inl rfl⟩
    | none =>
      simp only []
      obtain ⟨S, M, G, h, hS, hM, hG⟩ := createPhase_trace sdk remote lxc prev order new
        ([] ++ [RemoteOp.deleteDevices lxc (", ".intercalate
          ((order.deleteOrder.filterMap (deleteCandidate prev new)).map diskSlotName))])
      exact ⟨_, S, M, G, by simpa using h, rfl, hS, hM, hG⟩

/-! ## Slot names, root protection and the end-to-end scenario -/

/-- C9: `diskSlotName` is a total function; with an integer `slot` it returns the
`type` string (or `mp` when `type` is absent, empty or not a string) followed by
the decimal rendering of the slot, and without an integer `slot` it returns
`rootfs`, whatever the `type`. -/
theorem diskSlotName_spec (disk : QemuDevice) :
    (∀ n s, attr disk "slot" = Value.int n → attr disk "type" = Value.str s → s ≠ "" →
        diskSlotName disk = s ++ Itoa n)
    ∧ (∀ n, attr disk "slot" = Value.int n → (∀ s, attr disk "type" = Value.str s → s = "") →
        diskSlotName disk = "mp" ++ Itoa n)
    ∧ ((∀ n, attr disk "slot" ≠ Value.int n) → diskSlotName disk = "rootfs") := by
  refine ⟨?_, ?_, ?_⟩
  · intro n s hslot htype hs
    simp [diskSlotName, hslot, htype, hs]
  · intro n hslot htype
    unfold diskSlotName
    rw [hslot]
    cases ht : attr disk "type" with
    | str s => simp [htype s ht]
    | _ => rfl
  · intro hslot
    unfold diskSlotName
    cases hs : attr disk "slot" with
    | int n => exact absurd hs (hslot n)
    | _ => rfl

/-- C1 (the code at the failing input): a previous set whose only device has no
`slot`, hence slot-name `rootfs`, reconciled against an empty desired set: the
first remote call is a delete that names `rootfs`. -/
theorem rootfs_deleted_when_absent_from_desired :
    diskSlotName [("storage", Value.str "local"), ("size", Value.str "8G")] = "rootfs"
    ∧ (processLxcDiskChanges sampleSDK (Remote.succeeding []) true
        [(Value.int 0, [("storage", Value.str "local"), ("size", Value.str "8G")])] []
        (RangeOrder.ofKeys [Value.int 0] [])).trace
      = [RemoteOp.deleteDevices true "rootfs", RemoteOp.getConfig] := by
  decide

/-- C3 (the code at the failing input): on the end-to-end scenario of the
specification the first remote call is a delete of `mp0`, issued before the
move and the resize of that same slot. -/
theorem scenario_deletes_the_device :
    (processLxcDiskChanges sampleSDK (Remote.succeeding [("mp0", Value.str "nfs:vol-2")]) true
        [(Value.str "a", [("slot", Value.int 0), ("storage", Value.str "local"),
          ("size", Value.str "10G"), ("volume", Value.str "vol-1")])]
        [(Value.str "a", [("slot", Value.int 0), ("storage", Value.str "nfs"),
          ("size", Value.str "20G")])]
        (RangeOrder.ofKeys [Value.str "a"] [Value.str "a"])).trace
      = [RemoteOp.deleteDevices true "mp0", RemoteOp.moveDisk true "mp0" "nfs",
         RemoteOp.resizeDisk "mp0" "20G", RemoteOp.getConfig] := by
  decide

/-! ## Reconciling a set against itself -/


theorem deleteCandidate_self (s : KeyedDeviceMap) (key : Value) :
    deleteCandidate s s key = none := by
  unfold deleteCandidate
  cases h : mapLookup s key with
  | none => rfl
  | some d =>
    simp only []
    by_cases hr : diskSlotName d = "rootfs"
    · rw [if_pos hr]
    · rw [if_neg hr]; simp

theorem createLoop_self (sdk : SDK) (s : KeyedDeviceMap) (order : List Value) :
    createLoop sdk s order [] s = (some [], s) := by
  induction order with
  | nil => rfl
  | cons key rest ih =>
    unfold createLoop
    cases h : mapLookup s key with
    | none => exact ih
    | some d =>
      simp only []
      rw [inherit_self, mapSet_of_lookup s key d h]
      simpa using ih

theorem moveResizeLoop_self (remote : Remote) (lxc : Bool) (s : KeyedDeviceMap)
    (order : List Value) (t : List RemoteOp) :
    moveResizeLoop remote lxc s s order t = (t, Result.ok) := by
  induction order with
  | nil => rfl
  | cons key rest ih =>
    unfold moveResizeLoop
    cases h : mapLookup s key with
    | none => exact ih
    | some d =>
      simp only []
      have hm : moveDisk remote lxc d d t = (t, Result.ok) := by
        unfold moveDisk
        cases hs : attr d "storage" <;> simp
      have hz : processDiskResize remote d d (diskSlotName d) t = (t, Result.ok) := by
        unfold processDiskResize
        cases hs : mapLookup d "size" with
        | none => rfl
        | some v => simp [attr_of_lookup d "size" v hs]
      rw [hm]
      simp only []
      rw [hz]
      simpa using ih

/-- C4 (counterexample): reconciling a one-device set against itself does issue a
remote call, the `getConfig` read, so the emitted sequence is not empty. -/
theorem self_reconcile_counterexample :
    (processLxcDiskChanges sampleSDK (Remote.succeeding [("mp0", Value.str "local:vol-1")]) true
        [(Value.str "a", [("slot", Value.int 0), ("storage", Value.str "local"),
          ("size", Value.str "10G"), ("volume", Value.str "vol-1")])]
        [(Value.str "a", [("slot", Value.int 0), ("storage", Value.str "local"),
          ("size", Value.str "10G"), ("volume", Value.str "vol-1")])]
        (RangeOrder.ofKeys [Value.str "a"] [Value.str "a"])).trace
      = [RemoteOp.getConfig]
    ∧ (processLxcDiskChanges sampleSDK (Remote.succeeding [("mp0", Value.str "local:vol-1")]) true
        [(Value.str "a", [("slot", Value.int 0), ("storage", Value.str "local"),
          ("size", Value.str "10G"), ("volume", Value.str "vol-1")])]
        [(Value.str "a", [("slot", Value.int 0), ("storage", Value.str "local"),
          ("size", Value.str "10G"), ("volume", Value.str "vol-1")])]
        (RangeOrder.ofKeys [Value.str "a"] [Value.str "a"])).trace
      ≠ [] := by
  decide

/-- C4 (amended): reconciling a device set against itself issues no delete, set,
move or resize call: on every remote side and for every visiting order the
emitted sequence is exactly the single `getConfig` read. -/
theorem self_reconcile_only_reads_config (sdk : SDK) (remote : Remote) (lxc : Bool)
    (s : KeyedDeviceMap) (order : RangeOrder) :
    (processLxcDiskChanges sdk remote lxc s s order).trace = [RemoteOp.getConfig] := by
  unfold processLxcDiskChanges
  have hq : order.deleteOrder.filterMap (deleteCandidate s s) = [] :=
    List.filterMap_eq_nil_iff.2 (fun a _ => deleteCandidate_self s a)
  simp only [deleteLoop_eq, List.nil_append, hq, List.length_nil, gt_iff_lt,
    lt_self_iff_false, if_false]
  unfold createPhase
  simp only [createLoop_self, List.length_nil, gt_iff_lt, lt_self_iff_false, if_false]
  unfold movePhase
  rw [moveResizeLoop_self]
  simp only []
  rw [volumePhase_trace]
  rfl

/-! ## The delete phase -/


theorem deleteDiskKeys_eq (prev new : KeyedDeviceMap) (order : List Value) :
    deleteDiskKeys prev new order
      = (order.filterMap (deleteCandidate prev new)).map diskSlotName := by
  unfold deleteDiskKeys
  rw [deleteLoop_eq, List.nil_append]

theorem deleteCandidate_eq_some (prev new : KeyedDeviceMap) (key : Value) (q : QemuDevice)
    (h : deleteCandidate prev new key = some q) : mapLookup prev key = some q := by
  unfold deleteCandidate at h
  cases hp : mapLookup prev key with
  | none => rw [hp] at h; cases h
  | some p =>
    rw [hp] at h
    cases hn : mapLookup new key with
    | none => rw [hn] at h; exact h
    | some d =>
      rw [hn] at h
      simp only [] at h
      by_cases hr : diskSlotName d = "rootfs"
      · rw [if_pos hr] at h; cases h
      · rw [if_neg hr] at h
        by_cases hc : (attr d "volume" ≠ Value.str "" ∧ attr p "volume" ≠ attr d "volume")
            ∨ attr p "slot" ≠ attr d "slot"
        · rw [if_pos hc] at h; exact h
        · rw [if_neg hc] at h; cases h

theorem deleteCandidate_isSome_iff (prev new : KeyedDeviceMap) (key : Value) (p : QemuDevice)
    (hp : mapLookup prev key = some p)
    (hnew : ∀ d, mapLookup new key = some d → diskSlotName d ≠ "rootfs") :
    deleteCandidate prev new key = some p ↔
      (mapLookup new key = none
        ∨ (∃ d, mapLookup new key = some d ∧ attr d "volume" ≠ Value.str ""
            ∧ attr p "volume" ≠ attr d "volume")
        ∨ (∃ d, mapLookup new key = some d ∧ attr p "slot" ≠ attr d "slot")) := by
  unfold deleteCandidate
  rw [hp]
  cases hn : mapLookup new key with
  | none => simp
  | some d =>
    simp only []
    rw [if_neg (hnew d hn)]
    by_cases hc : (attr d "volume" ≠ Value.str "" ∧ attr p "volume" ≠ attr d "volume")
        ∨ attr p "slot" ≠ attr d "slot"
    · rw [if_pos hc]
      refine ⟨fun _ => ?_, fun _ => rfl⟩
      rcases hc with hc | hc
      · exact Or.inr (Or.inl ⟨d, rfl, hc.1, hc.2⟩)
      · exact Or.inr (Or.inr ⟨d, rfl, hc⟩)
    · rw [if_neg hc]
      refine ⟨fun h => Option.noConfusion h, ?_⟩
      rintro (h | ⟨d', hd', h1, h2⟩ | ⟨d', hd', h⟩)
      · cases h
      · cases hd'; exact absurd (Or.inl ⟨h1, h2⟩) hc
      · cases hd'; exact absurd (Or.inr h) hc

/-- C2 (the code at the failing input): key `a` is present in both sets with the
same slot and the desired device carries no `volume` attribute at all, so none
of (a), (b), (c) holds; yet the slot-name `mp0` of the previous device is named
for deletion, and the delete call is made.  (A second input shows the guard of
the first loop at work: the desired device of the key has no `slot`, so the
slots differ, and nothing is named for deletion.) -/
theorem delete_phase_on_absent_volume :
    (mapLookup [(Value.str "a", [("slot", Value.int 0)])] (Value.str "a")
        = some [("slot", Value.int 0)]
      ∧ mapLookup [("slot", Value.int 0)] "volume" = none
      ∧ attr [("slot", Value.int 0), ("volume", Value.str "vol-1")] "slot"
          = attr [("slot", Value.int 0)] "slot"
      ∧ diskSlotName [("slot", Value.int 0), ("volume", Value.str "vol-1")] ≠ "rootfs"
      ∧ deleteDiskKeys
          [(Value.str "a", [("slot", Value.int 0), ("volume", Value.str "vol-1")])]
          [(Value.str "a", [("slot", Value.int 0)])] [Value.str "a"] = ["mp0"]
      ∧ (processLxcDiskChanges sampleSDK (Remote.succeeding [("mp0", Value.str "local:vol-1")])
          true
          [(Value.str "a", [("slot", Value.int 0), ("volume", Value.str "vol-1")])]
          [(Value.str "a", [("slot", Value.int 0)])]
          (RangeOrder.ofKeys [Value.str "a"] [Value.str "a"])).trace
        = [RemoteOp.deleteDevices true "mp0", RemoteOp.getConfig])
    ∧ (diskSlotName [("slot", Value.int 0), ("storage", Value.str "local")] ≠ "rootfs"
      ∧ attr [("slot", Value.int 0), ("storage", Value.str "local")] "slot"
          ≠ attr [("storage", Value.str "local")] "slot"
      ∧ deleteDiskKeys
          [(Value.str "a", [("slot", Value.int 0), ("storage", Value.str "local")])]
          [(Value.str "a", [("storage", Value.str "local")])] [Value.str "a"] = []) := by
  decide

/-- The delete phase away from its two defects.  Let `k` be a key the first loop
visits whose previous device `p` does not resolve to `rootfs`, whose desired
device, when there is one, does not resolve to `rootfs` either and carries a
string `volume`, and let no other visited previous device share the slot-name
of `p`.  Then the slot-name of `p` is among the names joined into the delete
call if and only if (a) `k` is absent from the desired set, or (b) the desired
`volume` is not empty and differs from the previous `volume`, or (c) the
previous and desired `slot` differ. -/
theorem delete_phase_characterisation (prev new : KeyedDeviceMap) (order : List Value)
    (k : Value) (p : QemuDevice)
    (hk : k ∈ order) (hp : mapLookup prev k = some p)
    (_hroot : diskSlotName p ≠ "rootfs")
    (hnew : ∀ d, mapLookup new k = some d →
      diskSlotName d ≠ "rootfs" ∧ (attr d "volume").isStr = true)
    (hdistinct : ∀ k' ∈ order, ∀ p', mapLookup prev k' = some p' →
      diskSlotName p' = diskSlotName p → k' = k) :
    diskSlotName p ∈ deleteDiskKeys prev new order ↔
      (mapLookup new k = none
        ∨ (∃ d, mapLookup new k = some d ∧ attr d "volume" ≠ Value.str ""
            ∧ attr p "volume" ≠ attr d "volume")
        ∨ (∃ d, mapLookup new k = some d ∧ attr p "slot" ≠ attr d "slot")) := by
  rw [← deleteCandidate_isSome_iff prev new k p hp (fun d hd => (hnew d hd).1),
    deleteDiskKeys_eq]
  constructor
  · intro h
    obtain ⟨q, hq, hname⟩ := List.mem_map.1 h
    obtain ⟨k', hk', hc⟩ := List.mem_filterMap.1 hq
    have hq' := deleteCandidate_eq_some prev new k' q hc
    have hkk := hdistinct k' hk' q hq' hname
    subst hkk
    rw [hq'] at hp
    cases hp
    exact hc
  · intro h
    exact List.mem_map.2 ⟨p, List.mem_filterMap.2 ⟨k, hk, h⟩, rfl⟩

/-- An instance of the characterisation of the delete phase: in the example
sets key `a` asks for another volume, so `mp0` is named for deletion. -/
theorem delete_phase_characterisation_witness :
    diskSlotName [("slot", Value.int 0), ("volume", Value.str "vol-1")]
      ∈ deleteDiskKeys examplePrevious exampleDesired [Value.str "a", Value.str "b"] :=
  (delete_phase_characterisation examplePrevious exampleDesired
      [Value.str "a", Value.str "b"] (Value.str "a")
      [("slot", Value.int 0), ("volume", Value.str "vol-1")]
      (by decide) rfl (by decide)
      (fun d hd => by
        have hd' : some [("slot", Value.int 0), ("volume", Value.str "vol-9")] = some d := hd
        cases hd'
        decide)
      (fun k' hk' p' hp' hname => by
        rcases List.mem_cons.1 hk' with rfl | hk'
        · rfl
        · rcases List.mem_cons.1 hk' with rfl | hk'
          · have hp'' : some [("slot", Value.int 1), ("volume", Value.str "vol-2")] = some p' :=
              hp'
            cases hp''
            exact absurd hname (by decide)
          · cases hk')).2
    (Or.inr (Or.inl ⟨[("slot", Value.int 0), ("volume", Value.str "vol-9")], rfl,
      by decide, by decide⟩))

/-! ## Batched deletes -/


theorem length_filterMap_eq {α β : Type} (f : α → Option β) (l : List α) :
    (l.filterMap f).length = (l.filter (fun a => (f a).isSome)).length := by
  induction l with
  | nil => rfl
  | cons a l ih =>
    cases h : f a with
    | none => simp [List.filterMap_cons, List.filter_cons, h, ih]
    | some b => simp [List.filterMap_cons, List.filter_cons, h, ih]

theorem filter_isDelete_of_move_resize (M : List RemoteOp)
    (h : ∀ op ∈ M, op.isMove = true ∨ op.isResize = true) :
    M.filter RemoteOp.isDelete = [] := by
  apply List.filter_eq_nil_iff.2
  intro op hop
  rcases h op hop with h' | h' <;> cases op <;> simp_all [RemoteOp.isMove, RemoteOp.isResize, RemoteOp.isDelete]

/-- C7 (counterexample): three mount points absent from the desired set are
deleted by one call whose argument is `mp0, mp1, mp2`, joined with a comma and
a space; the call does not carry the names joined with `,`, in any order. -/
theorem batched_delete_counterexample :
    (processLxcDiskChanges sampleSDK (Remote.succeeding []) true exampleThree []
        (RangeOrder.ofKeys [Value.str "a", Value.str "b", Value.str "c"] [])).trace
      = [RemoteOp.deleteDevices true "mp0, mp1, mp2", RemoteOp.getConfig]
    ∧ (∀ names ∈ [["mp0", "mp1", "mp2"], ["mp0", "mp2", "mp1"], ["mp1", "mp0", "mp2"],
          ["mp1", "mp2", "mp0"], ["mp2", "mp0", "mp1"], ["mp2", "mp1", "mp0"]],
        RemoteOp.deleteDevices true (",".intercalate names) ∉
          (processLxcDiskChanges sampleSDK (Remote.succeeding []) true exampleThree []
            (RangeOrder.ofKeys [Value.str "a", Value.str "b", Value.str "c"] [])).trace) := by
  decide

/-- C7 (amended): every run makes at most one delete call.  When at least one
visited previous device qualifies for deletion, exactly one delete call is made
and its argument is the slot-names of the qualifying devices, one per qualifying
device in visiting order, joined with the separator `", "` (a comma and a
space); when none qualifies, no delete call is made. -/
theorem batched_delete (sdk : SDK) (remote : Remote) (lxc : Bool)
    (prev new : KeyedDeviceMap) (order : RangeOrder) :
    (processLxcDiskChanges sdk remote lxc prev new order).trace.filter RemoteOp.isDelete
      = (if deleteDiskKeys prev new order.deleteOrder = [] then []
         else [RemoteOp.deleteDevices lxc
                (", ".intercalate (deleteDiskKeys prev new order.deleteOrder))])
    ∧ deleteDiskKeys prev new order.deleteOrder
        = (order.deleteOrder.filterMap (deleteCandidate prev new)).map diskSlotName
    ∧ (deleteDiskKeys prev new order.deleteOrder).length
        = (order.deleteOrder.filter
            (fun key => (deleteCandidate prev new key).isSome)).length := by
  refine ⟨?_, deleteDiskKeys_eq prev new _, ?_⟩
  · obtain ⟨D, S, M, G, ht, hD, hS, hM, hG⟩ :=
      processLxcDiskChanges_trace sdk remote lxc prev new order
    have hS' : S.filter RemoteOp.isDelete = [] := by
      rcases hS with rfl | ⟨params, _, rfl⟩ <;> simp [RemoteOp.isDelete]
    have hG' : G.filter RemoteOp.isDelete = [] := by
      rcases hG with rfl | rfl <;> simp [RemoteOp.isDelete]
    rw [ht, List.filter_append, List.filter_append, List.filter_append, hS', hG',
      filter_isDelete_of_move_resize M hM, deleteDiskKeys_eq, hD]
    by_cases hq : order.deleteOrder.filterMap (deleteCandidate prev new) = []
    · simp [hq]
    · have hq' : (order.deleteOrder.filterMap (deleteCandidate prev new)).map diskSlotName
          ≠ [] := by simpa using hq
      rw [if_neg hq, if_neg hq']
      simp [RemoteOp.isDelete]
  · rw [deleteDiskKeys_eq, List.length_map, length_filterMap_eq]

/-! ## The network reconciler: deletion by id -/


theorem findNetwork_eq (x : Int) (new : List QemuDevice) :
    ∀ (newIds : List Int), new.map (fun net => attr net "id") = newIds.map Value.int →
      findNetwork x new = some (decide (x ∈ newIds)) := by
  induction new with
  | nil =>
    intro newIds h
    cases newIds with
    | nil => simp [findNetwork]
    | cons i is => simp at h
  | cons net rest ih =>
    intro newIds h
    cases newIds with
    | nil => simp at h
    | cons i is =>
      simp only [List.map_cons, List.cons.injEq] at h
      unfold findNetwork
      rw [h.1]
      simp only []
      by_cases hx : x = i
      · simp [hx]
      · rw [if_neg hx, ih is h.2]
        simp [hx]

theorem delNetworksLoop_eq (new : List QemuDevice) (newIds : List Int)
    (hn : new.map (fun net => attr net "id") = newIds.map Value.int) (prev : List QemuDevice) :
    ∀ (prevIds : List Int) (acc : List QemuDevice),
      prev.map (fun net => attr net "id") = prevIds.map Value.int →
      ∃ dels, delNetworksLoop new prev acc = some (acc ++ dels)
        ∧ dels.map (fun net => attr net "id")
            = (prevIds.filter (fun id => decide (id ∉ newIds))).map Value.int := by
  induction prev with
  | nil =>
    intro prevIds acc h
    cases prevIds with
    | nil => exact ⟨[], by simp [delNetworksLoop], by simp⟩
    | cons i is => simp at h
  | cons net rest ih =>
    intro prevIds acc h
    cases prevIds with
    | nil => simp at h
    | cons i is =>
      simp only [List.map_cons, List.cons.injEq] at h
      unfold delNetworksLoop
      rw [h.1]
      simp only []
      rw [findNetwork_eq i new newIds hn]
      by_cases hi : i ∈ newIds
      · obtain ⟨dels, hd, hm⟩ := ih is acc h.2
        refine ⟨dels, by simpa [hi] using hd, ?_⟩
        simp [List.filter_cons, hi, hm]
      · obtain ⟨dels, hd, hm⟩ := ih is (acc ++ [net]) h.2
        refine ⟨net :: dels, by simpa [hi] using hd, ?_⟩
        simp [List.filter_cons, hi, hm, h.1]

theorem deleteNetKeys_eq (l : List QemuDevice) :
    ∀ (ids : List Int), l.map (fun net => attr net "id") = ids.map Value.int →
      deleteNetKeys l = some (ids.map (fun id => "net" ++ Itoa id)) := by
  induction l with
  | nil =>
    intro ids h
    cases ids with
    | nil => rfl
    | cons i is => simp at h
  | cons net rest ih =>
    intro ids h
    cases ids with
    | nil => simp at h
    | cons i is =>
      simp only [List.map_cons, List.cons.injEq] at h
      unfold deleteNetKeys
      rw [h.1]
      simp only []
      rw [ih is h.2]
      rfl

/-- C8: for network lists whose entries carry the integer ids `prevIds` and
`newIds`, `processLxcNetworkChanges` makes a delete call if and only if some
previous id is not an id of the desired list; that single call names `net<id>`
for exactly the previous ids absent from the desired ids, in the order of the
previous list.  The ids alone determine the calls, so no other field can cause
a delete. -/
theorem network_delete_by_id (remote : Remote) (lxc : Bool) (prev new : List QemuDevice)
    (prevIds newIds : List Int)
    (hp : prev.map (fun net => attr net "id") = prevIds.map Value.int)
    (hn : new.map (fun net => attr net "id") = newIds.map Value.int) :
    (processLxcNetworkChanges remote lxc prev new).1
      = if prevIds.filter (fun id => decide (id ∉ newIds)) = [] then []
        else [RemoteOp.deleteDevices lxc (", ".intercalate
          ((prevIds.filter (fun id => decide (id ∉ newIds))).map
            (fun id => "net" ++ Itoa id)))] := by
  obtain ⟨dels, hd, hm⟩ := delNetworksLoop_eq new newIds hn prev prevIds [] hp
  unfold processLxcNetworkChanges
  rw [hd]
  simp only [List.nil_append]
  have hlen : dels.length = (prevIds.filter (fun id => decide (id ∉ newIds))).length := by
    have := congrArg List.length hm
    simpa using this
  by_cases hq : prevIds.filter (fun id => decide (id ∉ newIds)) = []
  · have hd0 : dels = [] := by
      apply List.eq_nil_of_length_eq_zero
      rw [hlen, hq]; rfl
    rw [if_pos hq, hd0]
    rfl
  · have hpos : dels.length > 0 := by
      rw [hlen]; exact List.length_pos.2 hq
    rw [if_neg hq, if_pos hpos, deleteNetKeys_eq dels _ hm]
    simp only []
    rw [issue_trace]
    rfl

/-- C8 (witness): previous ids 0 and 1, desired id 0 with another bridge: exactly
one delete call, naming `net1`. -/
theorem network_delete_by_id_witness :
    (processLxcNetworkChanges (Remote.succeeding []) true
        [[("id", Value.int 0), ("bridge", Value.str "vmbr0")], [("id", Value.int 1)]]
        [[("id", Value.int 0), ("bridge", Value.str "vmbr1")]]).1
      = [RemoteOp.deleteDevices true "net1"] :=
  (network_delete_by_id (Remote.succeeding []) true
      [[("id", Value.int 0), ("bridge", Value.str "vmbr0")], [("id", Value.int 1)]]
      [[("id", Value.int 0), ("bridge", Value.str "vmbr1")]] [0, 1] [0] rfl rfl).trans
    (by decide)

/-! ## The trace of a run in which every call succeeds -/


theorem mem_of_mapLookup {κ α : Type} [DecidableEq κ] (m : List (κ × α)) (k : κ) (v : α)
    (h : mapLookup m k = some v) : (k, v) ∈ m := by
  induction m with
  | nil => simp [mapLookup] at h
  | cons e m ih =>
    obtain ⟨a, b⟩ := e
    by_cases hk : a = k
    · subst hk
      simp [mapLookup] at h
      simp [h]
    · simp [mapLookup, hk] at h
      exact List.mem_cons_of_mem _ (ih h)

theorem isStr_of_lookup (name : String) (s : KeyedDeviceMap) (h : AttrIsString name s)
    (key : Value) (d : QemuDevice) (v : Value)
    (hd : mapLookup s key = some d) (hv : mapLookup d name = some v) :
    ∃ z, v = Value.str z := by
  have := h (key, d) (mem_of_mapLookup s key d hd) (name, v) (mem_of_mapLookup d name v hv) rfl
  cases v with
  | str z => exact ⟨z, rfl⟩
  | _ => simp [Value.isStr] at this

theorem createLoop_sizes (sdk : SDK) (prev new : KeyedDeviceMap) (order : List Value)
    (hsize : AttrIsString "size" new)
    (hdone : (createLoop sdk prev order [] new).1 ≠ none) :
    ∀ key p d v, mapLookup prev key = some p →
      mapLookup (createLoop sdk prev order [] new).2 key = some d →
      mapLookup d "size" = some v → v ≠ attr p "size" → ∃ z, v = Value.str z := by
  intro key p d v hp hd hv hne
  rw [createLoop_lookup sdk prev order key [] new hdone] at hd
  by_cases hk : key ∈ order
  · rw [if_pos hk] at hd
    cases hn : mapLookup new key with
    | none => rw [hn] at hd; cases hd
    | some d0 =>
      rw [hn] at hd
      simp only [Option.map_some', Option.some.injEq, mergedDevice, hp] at hd
      subst hd
      rw [mapLookup_inherit] at hv
      cases h0 : mapLookup d0 "size" with
      | some w =>
        rw [h0] at hv
        have hwv : w = v := Option.some.inj hv
        subst hwv
        exact isStr_of_lookup "size" new hsize key d0 w hn h0
      | none =>
        rw [h0] at hv
        exact absurd (attr_of_lookup p "size" v hv).symm hne
  · rw [if_neg hk] at hd
    exact isStr_of_lookup "size" new hsize key d v hd hv

theorem createPhase_success (sdk : SDK) (remote : Remote) (hr : ∀ t, remote.fails t = none)
    (lxc : Bool) (prev new : KeyedDeviceMap) (order : RangeOrder)
    (hsize : AttrIsString "size" new) (params : List (String × String))
    (hdone : (createLoop sdk prev order.createOrder [] new).1 = some params)
    (t : List RemoteOp) :
    (createPhase sdk remote lxc prev order new t).trace
      = t ++ (if params = [] then [] else [RemoteOp.setDevices lxc params])
          ++ order.moveOrder.flatMap
              (keyCalls lxc prev (createLoop sdk prev order.createOrder [] new).2)
          ++ [RemoteOp.getConfig] := by
  have hdone' : (createLoop sdk prev order.createOrder [] new).1 ≠ none := by
    rw [hdone]; exact fun h => Option.noConfusion h
  unfold createPhase
  simp only []
  rw [hdone]
  simp only []
  by_cases hq : params = []
  · rw [if_pos hq]
    simp only [hq, List.length_nil, gt_iff_lt, lt_self_iff_false, if_false]
    rw [movePhase_success sdk remote hr lxc prev order _
      (createLoop_sizes sdk prev new order.createOrder hsize hdone')]
    simp
  · have hlen : params.length > 0 := List.length_pos.2 hq
    rw [if_neg hq, if_pos hlen, issue_success remote hr]
    simp only []
    rw [movePhase_success sdk remote hr lxc prev order _
      (createLoop_sizes sdk prev new order.createOrder hsize hdone')]

theorem processLxcDiskChanges_success (sdk : SDK) (remote : Remote)
    (hr : ∀ t, remote.fails t = none) (lxc : Bool) (prev new : KeyedDeviceMap)
    (order : RangeOrder) (hsize : AttrIsString "size" new) (params : List (String × String))
    (hdone : (createLoop sdk prev order.createOrder [] new).1 = some params) :
    (processLxcDiskChanges sdk remote lxc prev new order).trace
      = (if deleteDiskKeys prev new order.deleteOrder = [] then []
         else [RemoteOp.deleteDevices lxc
                (", ".intercalate (deleteDiskKeys prev new order.deleteOrder))])
          ++ (if params = [] then [] else [RemoteOp.setDevices lxc params])
          ++ order.moveOrder.flatMap
              (keyCalls lxc prev (createLoop sdk prev order.createOrder [] new).2)
          ++ [RemoteOp.getConfig] := by
  unfold processLxcDiskChanges
  simp only []
  have hk : (deleteLoop prev new order.deleteOrder []).map diskSlotName
      = deleteDiskKeys prev new order.deleteOrder := rfl
  rw [hk]
  by_cases hq : deleteDiskKeys prev new order.deleteOrder = []
  · have hl : ¬ (deleteLoop prev new order.deleteOrder []).length > 0 := by
      have := congrArg List.length hq
      rw [← hk, List.length_map, List.length_nil] at this
      omega
    rw [if_pos hq, if_neg hl]
    simp only []
    rw [createPhase_success sdk remote hr lxc prev new order hsize params hdone]
  · have hl : (deleteLoop prev new order.deleteOrder []).length > 0 := by
      rw [← hk] at hq
      have : (deleteLoop prev new order.deleteOrder []) ≠ [] := by
        intro h; apply hq; rw [h]; rfl
      exact List.length_pos.2 this
    rw [if_neg hq, if_pos hl, issue_success remote hr]
    simp only []
    rw [createPhase_success sdk remote hr lxc prev new order hsize params hdone]
    rfl

theorem some_of_ne_none {α : Type} (o : Option α) (h : o ≠ none) : ∃ a, o = some a := by
  cases o with
  | none => exact absurd rfl h
  | some a => exact ⟨a, rfl⟩

/-! ## The move phase -/


theorem filter_isMove_moveCalls (lxc : Bool) (p d : QemuDevice) :
    (moveCalls lxc p d).filter RemoteOp.isMove = moveCalls lxc p d := by
  unfold moveCalls
  cases attr d "storage" with
  | str s =>
    simp only []
    by_cases h : Value.str s ≠ attr p "storage"
    · rw [if_pos h]; rfl
    · rw [if_neg h]; rfl
  | _ => rfl

theorem filter_isMove_resizeCalls (p d : QemuDevice) (n : String) :
    (resizeCalls p d n).filter RemoteOp.isMove = [] := by
  unfold resizeCalls
  cases mapLookup d "size" with
  | none => rfl
  | some v =>
    simp only []
    by_cases h : v ≠ attr p "size"
    · rw [if_pos h]; cases v <;> rfl
    · rw [if_neg h]; rfl

theorem moveCalls_inherit (lxc : Bool) (new : KeyedDeviceMap) (hstorage : AttrIsString "storage" new)
    (key : Value) (p d : QemuDevice) (hn : mapLookup new key = some d) :
    moveCalls lxc p (inherit d p)
      = (if attr (inherit d p) "storage" ≠ attr p "storage" then
          some (RemoteOp.moveDisk lxc (diskSlotName p) (attr (inherit d p) "storage").asString)
        else none).toList := by
  unfold moveCalls
  cases hs : attr (inherit d p) "storage" with
  | str s =>
    simp only []
    by_cases h : Value.str s ≠ attr p "storage"
    · rw [if_pos h, if_pos h]; rfl
    · rw [if_neg h, if_neg h]; rfl
  | null | int _ | bool _ =>
    simp only []
    rw [attr_inherit] at hs
    cases h0 : mapLookup d "storage" with
    | none =>
      rw [h0] at hs
      simp only [] at hs
      rw [hs]
      simp
    | some w =>
      rw [h0] at hs
      simp only [] at hs
      obtain ⟨z, hz⟩ := isStr_of_lookup "storage" new hstorage key d w hn h0
      rw [hz] at hs
      cases hs

theorem keyCalls_filter_isMove (sdk : SDK) (lxc : Bool) (prev new : KeyedDeviceMap)
    (order : List Value) (hstorage : AttrIsString "storage" new)
    (hvisit : ∀ e ∈ new, e.1 ∈ order)
    (hdone : (createLoop sdk prev order [] new).1 ≠ none) (key : Value) :
    (keyCalls lxc prev (createLoop sdk prev order [] new).2 key).filter RemoteOp.isMove
      = (expectedMove lxc prev new key).toList := by
  unfold keyCalls expectedMove
  rw [createLoop_lookup sdk prev order key [] new hdone]
  cases hp : mapLookup prev key with
  | none => rfl
  | some p =>
    cases hn : mapLookup new key with
    | none => by_cases hk : key ∈ order <;> simp [hk]
    | some d =>
      have hk : key ∈ order := hvisit (key, d) (mem_of_mapLookup new key d hn)
      rw [if_pos hk]
      simp only [Option.map_some', mergedDevice, hp]
      rw [List.filter_append, filter_isMove_moveCalls, filter_isMove_resizeCalls,
        List.append_nil, moveCalls_inherit lxc new hstorage key p d hn]

theorem filter_flatMap_eq_filterMap {α β : Type} (f : α → List β) (g : α → Option β)
    (q : β → Bool) (h : ∀ a, (f a).filter q = (g a).toList) (l : List α) :
    (l.flatMap f).filter q = l.filterMap g := by
  induction l with
  | nil => rfl
  | cons a l ih =>
    rw [List.flatMap_cons, List.filter_append, h, ih]
    cases hg : g a <;> simp [List.filterMap_cons, hg]

/-- C10: in a run in which every remote call succeeds and `FormatDiskParam`
encodes every device the create loop creates, on desired sets whose `storage`
and `size` entries are strings and whose keys the create loop all visits, the
move-disk calls are exactly one per visited key that is present in both sets
and whose merged desired `storage` differs from the previous `storage`, each
naming the slot-name of the previous device and the desired storage; a key
present in only one set gets no move-disk call. -/
theorem move_phase (sdk : SDK) (remote : Remote) (lxc : Bool) (prev new : KeyedDeviceMap)
    (order : RangeOrder)
    (hr : ∀ t, remote.fails t = none)
    (hencode : (createLoop sdk prev order.createOrder [] new).1 ≠ none)
    (hsize : AttrIsString "size" new) (hstorage : AttrIsString "storage" new)
    (hvisit : ∀ e ∈ new, e.1 ∈ order.createOrder) :
    (processLxcDiskChanges sdk remote lxc prev new order).trace.filter RemoteOp.isMove
      = order.moveOrder.filterMap (expectedMove lxc prev new) := by
  obtain ⟨params, hparams⟩ := some_of_ne_none _ hencode
  rw [processLxcDiskChanges_success sdk remote hr lxc prev new order hsize params hparams,
    List.filter_append, List.filter_append, List.filter_append,
    filter_flatMap_eq_filterMap _ (expectedMove lxc prev new) RemoteOp.isMove
      (keyCalls_filter_isMove sdk lxc prev new order.createOrder hstorage hvisit hencode)]
  have hD : (if deleteDiskKeys prev new order.deleteOrder = [] then []
      else [RemoteOp.deleteDevices lxc
        (", ".intercalate (deleteDiskKeys prev new order.deleteOrder))]).filter
        RemoteOp.isMove = [] := by
    split <;> rfl
  have hS : (if params = [] then [] else [RemoteOp.setDevices lxc params]).filter
        RemoteOp.isMove = [] := by
    split <;> rfl
  rw [hD, hS]
  simp [RemoteOp.isMove]

/-- C10 (witness): slot 0 kept, storage changed from `local` to `nfs`: exactly one
move-disk call, naming `mp0` and `nfs`. -/
theorem move_phase_witness :
    (processLxcDiskChanges sampleSDK (Remote.succeeding [("mp0", Value.str "nfs:vol-1")]) true
        [(Value.str "a", [("slot", Value.int 0), ("storage", Value.str "local"),
          ("size", Value.str "10G"), ("volume", Value.str "vol-1")])]
        [(Value.str "a", [("slot", Value.int 0), ("storage", Value.str "nfs"),
          ("size", Value.str "10G"), ("volume", Value.str "")])]
        (RangeOrder.ofKeys [Value.str "a"] [Value.str "a"])).trace.filter RemoteOp.isMove
      = [RemoteOp.moveDisk true "mp0" "nfs"] :=
  (move_phase sampleSDK (Remote.succeeding [("mp0", Value.str "nfs:vol-1")]) true
      [(Value.str "a", [("slot", Value.int 0), ("storage", Value.str "local"),
        ("size", Value.str "10G"), ("volume", Value.str "vol-1")])]
      [(Value.str "a", [("slot", Value.int 0), ("storage", Value.str "nfs"),
        ("size", Value.str "10G"), ("volume", Value.str "")])]
      (RangeOrder.ofKeys [Value.str "a"] [Value.str "a"])
      (fun _ => rfl) (by decide) (by decide) (by decide) (by decide)).trans (by decide)

/-! ## Delete before create -/


theorem lookup_slot_of_not_rootfs (d : QemuDevice) (h : diskSlotName d ≠ "rootfs") :
    mapLookup d "slot" = some (attr d "slot") := by
  unfold diskSlotName at h
  cases hl : mapLookup d "slot" with
  | none =>
    have : attr d "slot" = Value.null := by simp [attr, hl]
    rw [this] at h
    exact absurd rfl h
  | some v => simp [attr, hl]

theorem createPhase_trace_of_entry (sdk : SDK) (remote : Remote) (lxc : Bool)
    (prev : KeyedDeviceMap) (order : RangeOrder) (new : KeyedDeviceMap) (t : List RemoteOp)
    (params : List (String × String))
    (hparams : (createLoop sdk prev order.createOrder [] new).1 = some params)
    (n : String) (h : mapLookup params n ≠ none) :
    ∃ rest, (createPhase sdk remote lxc prev order new t).trace
      = t ++ RemoteOp.setDevices lxc params :: rest := by
  have hne : params ≠ [] := by
    intro h0
    rw [h0] at h
    exact h rfl
  have hlen : params.length > 0 := List.length_pos.2 hne
  unfold createPhase
  simp only []
  rw [hparams]
  simp only []
  rw [if_pos hlen, issue_eq]
  cases remote.fails (t ++ [RemoteOp.setDevices lxc params]) with
  | some e => exact ⟨[], rfl⟩
  | none =>
    simp only []
    obtain ⟨M', G', h', _, _⟩ := movePhase_trace sdk remote lxc prev order
      (createLoop sdk prev order.createOrder [] new).2
      (t ++ [RemoteOp.setDevices lxc params])
    exact ⟨M' ++ G', by rw [h']; simp [List.append_assoc]⟩

/-- C5: let `k` be a key present in both sets whose `slot` differs, neither
device resolving to `rootfs`, visited by the delete loop and by the create
loop, and let the delete call succeed and `FormatDiskParam` encode every device
the create loop creates.  Then the run starts with the delete call, whose
joined names include the slot-name of the previous device, and the call right
after it is the set call, which has an entry keyed by the slot-name of the
desired device. -/
theorem delete_before_create (sdk : SDK) (remote : Remote) (lxc : Bool)
    (prev new : KeyedDeviceMap) (order : RangeOrder) (k : Value) (p d : QemuDevice)
    (hp : mapLookup prev k = some p) (hn : mapLookup new k = some d)
    (hslot : attr p "slot" ≠ attr d "slot")
    (_hproot : diskSlotName p ≠ "rootfs") (hdroot : diskSlotName d ≠ "rootfs")
    (hkd : k ∈ order.deleteOrder) (hkc : k ∈ order.createOrder)
    (hdel : remote.fails [RemoteOp.deleteDevices lxc
      (", ".intercalate (deleteDiskKeys prev new order.deleteOrder))] = none)
    (hencode : (createLoop sdk prev order.createOrder [] new).1 ≠ none) :
    ∃ params rest,
      (processLxcDiskChanges sdk remote lxc prev new order).trace
        = RemoteOp.deleteDevices lxc
            (", ".intercalate (deleteDiskKeys prev new order.deleteOrder))
          :: RemoteOp.setDevices lxc params :: rest
      ∧ diskSlotName p ∈ deleteDiskKeys prev new order.deleteOrder
      ∧ mapLookup params (diskSlotName d) ≠ none := by
  have hcand : deleteCandidate prev new k = some p := by
    unfold deleteCandidate
    rw [hp, hn]
    simp only []
    rw [if_neg hdroot, if_pos (Or.inr hslot)]
  have hmem : p ∈ deleteLoop prev new order.deleteOrder [] := by
    rw [deleteLoop_eq, List.nil_append]
    exact List.mem_filterMap.2 ⟨k, hkd, hcand⟩
  have hnamed : diskSlotName p ∈ deleteDiskKeys prev new order.deleteOrder :=
    List.mem_map.2 ⟨p, hmem, rfl⟩
  obtain ⟨params, hparams⟩ := some_of_ne_none _ hencode
  have hentry : mapLookup params (diskSlotName d) ≠ none := by
    apply createLoop_creates sdk prev k d _ order.createOrder [] new params hkc hn hparams
    intro p' hp'
    rw [hp] at hp'
    cases hp'
    rw [attr_inherit, lookup_slot_of_not_rootfs d hdroot]
    exact fun h => hslot h.symm
  obtain ⟨rest, hrest⟩ := createPhase_trace_of_entry sdk remote lxc prev order new
    [RemoteOp.deleteDevices lxc (", ".intercalate (deleteDiskKeys prev new order.deleteOrder))]
    params hparams (diskSlotName d) hentry
  refine ⟨params, rest, ?_, hnamed, hentry⟩
  unfold processLxcDiskChanges
  simp only []
  have hlen : (deleteLoop prev new order.deleteOrder []).length > 0 :=
    List.length_pos.2 (List.ne_nil_of_mem hmem)
  have hk : (deleteLoop prev new order.deleteOrder []).map diskSlotName
      = deleteDiskKeys prev new order.deleteOrder := rfl
  rw [if_pos hlen, issue_eq, hk, List.nil_append, hdel]
  simp only []
  rw [hrest]
  rfl

/-- C5 (witness): key `a` moves from slot 0 to slot 1: the run starts with the
delete of `mp0`, followed by a set call with an entry for `mp1`. -/
theorem delete_before_create_witness :
    ∃ params rest,
      (processLxcDiskChanges sampleSDK (Remote.succeeding [("mp1", Value.str "local:vol-1")]) true
          [(Value.str "a", [("slot", Value.int 0), ("storage", Value.str "local")])]
          [(Value.str "a", [("slot", Value.int 1), ("storage", Value.str "local")])]
          (RangeOrder.ofKeys [Value.str "a"] [Value.str "a"])).trace
        = RemoteOp.deleteDevices true
            (", ".intercalate (deleteDiskKeys
              [(Value.str "a", [("slot", Value.int 0), ("storage", Value.str "local")])]
              [(Value.str "a", [("slot", Value.int 1), ("storage", Value.str "local")])]
              (RangeOrder.ofKeys [Value.str "a"] [Value.str "a"]).deleteOrder))
          :: RemoteOp.setDevices true params :: rest
      ∧ diskSlotName [("slot", Value.int 0), ("storage", Value.str "local")]
          ∈ deleteDiskKeys
              [(Value.str "a", [("slot", Value.int 0), ("storage", Value.str "local")])]
              [(Value.str "a", [("slot", Value.int 1), ("storage", Value.str "local")])]
              (RangeOrder.ofKeys [Value.str "a"] [Value.str "a"]).deleteOrder
      ∧ mapLookup params (diskSlotName [("slot", Value.int 1), ("storage", Value.str "local")])
          ≠ none :=
  delete_before_create sampleSDK (Remote.succeeding [("mp1", Value.str "local:vol-1")]) true
    [(Value.str "a", [("slot", Value.int 0), ("storage", Value.str "local")])]
    [(Value.str "a", [("slot", Value.int 1), ("storage", Value.str "local")])]
    (RangeOrder.ofKeys [Value.str "a"] [Value.str "a"]) (Value.str "a")
    [("slot", Value.int 0), ("storage", Value.str "local")]
    [("slot", Value.int 1), ("storage", Value.str "local")]
    rfl rfl (by decide) (by decide) (by decide) (by decide) (by decide) rfl (by decide)

/-- The panic of `FormatDiskParam` in the model: key `a` moves from slot 0 to
slot 1 and inherits the size `G`, which has no digit.  The run makes the delete
call and then panics in the create loop; no set call is made. -/
theorem format_panic_stops_after_delete :
    (processLxcDiskChanges sampleSDK (Remote.succeeding []) true
        [(Value.str "a", [("slot", Value.int 0), ("storage", Value.str "local"),
          ("size", Value.str "G")])]
        [(Value.str "a", [("slot", Value.int 1)])]
        (RangeOrder.ofKeys [Value.str "a"] [Value.str "a"])).trace
      = [RemoteOp.deleteDevices true "mp0"]
    ∧ (processLxcDiskChanges sampleSDK (Remote.succeeding []) true
        [(Value.str "a", [("slot", Value.int 0), ("storage", Value.str "local"),
          ("size", Value.str "G")])]
        [(Value.str "a", [("slot", Value.int 1)])]
        (RangeOrder.ofKeys [Value.str "a"] [Value.str "a"])).result = Result.panicked := by
  decide

/-! ## Entries of the set call -/


theorem createLoop_untouched (sdk : SDK) (prev : KeyedDeviceMap) (n : String)
    (order : List Value) :
    ∀ (params : List (String × String)) (s : KeyedDeviceMap) (ps : List (String × String)),
      order.Nodup →
      (∀ k' ∈ order, ∀ d', mapLookup s k' = some d' → diskSlotName d' ≠ n) →
      (createLoop sdk prev order params s).1 = some ps →
      mapLookup ps n = mapLookup params n := by
  induction order with
  | nil =>
    intro params s ps _ _ hps
    simp only [createLoop, Option.some.injEq] at hps
    rw [hps]
  | cons key rest ih =>
    intro params s ps hnodup hfree
    obtain ⟨hkey, hrest⟩ := List.nodup_cons.1 hnodup
    have hfree' : ∀ k' ∈ rest, ∀ d', mapLookup s k' = some d' → diskSlotName d' ≠ n :=
      fun k' hk' => hfree k' (List.mem_cons_of_mem _ hk')
    unfold createLoop
    cases hs : mapLookup s key with
    | none => exact ih params s ps hrest hfree'
    | some dk =>
      have hname : diskSlotName dk ≠ n := hfree key (List.mem_cons_self _ _) dk hs
      have hset : ∀ v, mapLookup (mapSet params (diskSlotName dk) v) n = mapLookup params n := by
        intro v
        rw [mapLookup_mapSet, if_neg hname]
      cases hp : mapLookup prev key with
      | none =>
        simp only []
        cases sdk.FormatDiskParam dk with
        | none => intro hps; cases hps
        | some param =>
          simp only []
          intro hps
          rw [ih _ s ps hrest hfree' hps, hset]
      | some pk =>
        simp only []
        have hfree'' : ∀ k' ∈ rest, ∀ d',
            mapLookup (mapSet s key (inherit dk pk)) k' = some d' → diskSlotName d' ≠ n := by
          intro k' hk' d' hd'
          have hne : key ≠ k' := fun h => hkey (h ▸ hk')
          rw [mapLookup_mapSet, if_neg hne] at hd'
          exact hfree' k' hk' d' hd'
        by_cases hc : attr (inherit dk pk) "slot" ≠ attr pk "slot"
        · rw [if_pos hc]
          cases sdk.FormatDiskParam (inherit dk pk) with
          | none => intro hps; cases hps
          | some param =>
            simp only []
            intro hps
            rw [ih _ _ ps hrest hfree'' hps, hset]
        · rw [if_neg hc]
          intro hps
          rw [ih _ _ ps hrest hfree'' hps]

theorem createLoop_entry (sdk : SDK) (prev : KeyedDeviceMap) (k : Value) (p d : QemuDevice)
    (hp : mapLookup prev k = some p) (hc : attr (inherit d p) "slot" ≠ attr p "slot")
    (order : List Value) :
    ∀ (params : List (String × String)) (s : KeyedDeviceMap) (ps : List (String × String)),
      order.Nodup → k ∈ order →
      mapLookup s k = some d →
      (∀ k' ∈ order, ∀ d', mapLookup s k' = some d' → diskSlotName d' = diskSlotName d →
        k' = k) →
      (createLoop sdk prev order params s).1 = some ps →
      sdk.FormatDiskParam (inherit d p) ≠ none
        ∧ mapLookup ps (diskSlotName d) = sdk.FormatDiskParam (inherit d p) := by
  induction order with
  | nil => intro params s ps _ hk; cases hk
  | cons key rest ih =>
    intro params s ps hnodup hk hs hdist
    obtain ⟨hkey, hrest⟩ := List.nodup_cons.1 hnodup
    by_cases hkk : key = k
    · subst hkk
      unfold createLoop
      rw [hs, hp]
      simp only []
      rw [if_pos hc]
      cases hf : sdk.FormatDiskParam (inherit d p) with
      | none => intro hps; cases hps
      | some param =>
        simp only []
        intro hps
        refine ⟨fun h => Option.noConfusion h, ?_⟩
        rw [createLoop_untouched sdk prev (diskSlotName d) rest _ _ ps hrest _ hps]
        · rw [mapLookup_mapSet, if_pos rfl]
        · intro k' hk' d' hd' hname
          have hne : key ≠ k' := fun h => hkey (h ▸ hk')
          rw [mapLookup_mapSet, if_neg hne] at hd'
          exact hne (hdist k' (List.mem_cons_of_mem _ hk') d' hd' hname).symm
    · have hk' : k ∈ rest := by
        rcases List.mem_cons.1 hk with h | h
        · exact absurd h.symm hkk
        · exact h
      have hdist' : ∀ k' ∈ rest, ∀ d', mapLookup s k' = some d' →
          diskSlotName d' = diskSlotName d → k' = k :=
        fun k' h => hdist k' (List.mem_cons_of_mem _ h)
      unfold createLoop
      cases hsk : mapLookup s key with
      | none => exact ih params s ps hrest hk' hs hdist'
      | some dk =>
        cases hpk : mapLookup prev key with
        | none =>
          simp only []
          cases sdk.FormatDiskParam dk with
          | none => intro hps; cases hps
          | some param => exact ih _ s ps hrest hk' hs hdist'
        | some pk =>
          simp only []
          have hs' : mapLookup (mapSet s key (inherit dk pk)) k = some d := by
            rw [mapLookup_mapSet, if_neg hkk]; exact hs
          have hdist'' : ∀ k' ∈ rest, ∀ d',
              mapLookup (mapSet s key (inherit dk pk)) k' = some d' →
              diskSlotName d' = diskSlotName d → k' = k := by
            intro k' h d' hd'
            have hne : key ≠ k' := fun e => hkey (e ▸ h)
            rw [mapLookup_mapSet, if_neg hne] at hd'
            exact hdist' k' h d' hd'
          by_cases hcc : attr (inherit dk pk) "slot" ≠ attr pk "slot"
          · rw [if_pos hcc]
            cases sdk.FormatDiskParam (inherit dk pk) with
            | none => intro hps; cases hps
            | some param => exact ih _ _ ps hrest hk' hs' hdist''
          · rw [if_neg hcc]; exact ih _ _ ps hrest hk' hs' hdist''

theorem flatMap_contains {α β : Type} (f : α → List β) (l : List α) (a : α) (h : a ∈ l) :
    f a <:+: l.flatMap f := by
  obtain ⟨s, t, rfl⟩ := List.append_of_mem h
  refine ⟨s.flatMap f, t.flatMap f, ?_⟩
  simp [List.flatMap_append, List.flatMap_cons, List.append_assoc]

/-! ## Attribute inheritance -/


/-- C6: let `k` be a key present in both sets, with previous device `p` and
desired device `d`, visited by the create loop and by the move loop, in a run in
which every remote call succeeds and `FormatDiskParam` encodes every device the
create loop creates (desired `size` entries being strings, the create loop
visiting no key twice, and no other desired device sharing the slot-name of
`d`).  Then (1) the merge `inherit d p` keeps every attribute of `d` and copies
every attribute that only `p` has; (2) after the create loop the desired device
of `k` is that merge; (3) when the device is re-created, the set call is made
and its entry for the slot-name of `d` is the encoding of the merge; (4) the
move and resize calls computed from the merge are made, one after the other. -/
theorem attribute_inheritance (sdk : SDK) (remote : Remote) (lxc : Bool)
    (prev new : KeyedDeviceMap) (order : RangeOrder) (k : Value) (p d : QemuDevice)
    (hr : ∀ t, remote.fails t = none)
    (hencode : (createLoop sdk prev order.createOrder [] new).1 ≠ none)
    (hsize : AttrIsString "size" new)
    (hp : mapLookup prev k = some p) (hn : mapLookup new k = some d)
    (hkc : k ∈ order.createOrder) (hkm : k ∈ order.moveOrder)
    (hnodup : order.createOrder.Nodup)
    (hdistinct : ∀ e ∈ new, diskSlotName e.2 = diskSlotName d → e.1 = k) :
    (∀ a, mapLookup (inherit d p) a
        = match mapLookup d a with
          | some v => some v
          | none => mapLookup p a)
    ∧ mapLookup (createLoop sdk prev order.createOrder [] new).2 k = some (inherit d p)
    ∧ (attr (inherit d p) "slot" ≠ attr p "slot" →
        ∃ params, (createLoop sdk prev order.createOrder [] new).1 = some params
          ∧ RemoteOp.setDevices lxc params
              ∈ (processLxcDiskChanges sdk remote lxc prev new order).trace
          ∧ sdk.FormatDiskParam (inherit d p) ≠ none
          ∧ mapLookup params (diskSlotName d) = sdk.FormatDiskParam (inherit d p))
    ∧ (moveCalls lxc p (inherit d p)
          ++ resizeCalls p (inherit d p) (diskSlotName (inherit d p)))
        <:+: (processLxcDiskChanges sdk remote lxc prev new order).trace := by
  have hstate : mapLookup (createLoop sdk prev order.createOrder [] new).2 k
      = some (inherit d p) := by
    rw [createLoop_lookup sdk prev order.createOrder k [] new hencode, if_pos hkc, hn]
    simp [mergedDevice, hp]
  obtain ⟨params, hparams⟩ := some_of_ne_none _ hencode
  have htrace := processLxcDiskChanges_success sdk remote hr lxc prev new order hsize
    params hparams
  refine ⟨mapLookup_inherit d p, hstate, ?_, ?_⟩
  · intro hc
    have hentry := createLoop_entry sdk prev k p d hp hc order.createOrder [] new params
      hnodup hkc hn
      (fun k' _ d' hd' hname => hdistinct (k', d') (mem_of_mapLookup new k' d' hd') hname)
      hparams
    refine ⟨params, hparams, ?_, hentry.1, hentry.2⟩
    have hne : params ≠ [] := by
      intro h0
      have h2 := hentry.2
      rw [h0] at h2
      exact hentry.1 h2.symm
    rw [htrace, if_neg hne]
    simp
  · have hkey : keyCalls lxc prev (createLoop sdk prev order.createOrder [] new).2 k
        = moveCalls lxc p (inherit d p)
            ++ resizeCalls p (inherit d p) (diskSlotName (inherit d p)) := by
      unfold keyCalls
      rw [hp, hstate]
    obtain ⟨pre, hpre⟩ : ∃ pre, (processLxcDiskChanges sdk remote lxc prev new order).trace
        = pre ++ order.moveOrder.flatMap
            (keyCalls lxc prev (createLoop sdk prev order.createOrder [] new).2)
          ++ [RemoteOp.getConfig] := ⟨_, htrace⟩
    rw [hpre, ← hkey]
    obtain ⟨s, t, hst⟩ := flatMap_contains
      (keyCalls lxc prev (createLoop sdk prev order.createOrder [] new).2) order.moveOrder k hkm
    refine ⟨pre ++ s, t ++ [RemoteOp.getConfig], ?_⟩
    rw [← hst]
    simp [List.append_assoc]

/-- C6 (witness): previous `{key a, storage local, size 10G}`, desired
`{key a, size 20G}`: the merge has storage `local` and size `20G`, and the run
makes the resize to `20G` and no move. -/
theorem attribute_inheritance_witness :
    (attr (inherit [("key", Value.str "a"), ("size", Value.str "20G")]
        [("key", Value.str "a"), ("storage", Value.str "local"), ("size", Value.str "10G")])
        "storage" = Value.str "local"
      ∧ attr (inherit [("key", Value.str "a"), ("size", Value.str "20G")]
        [("key", Value.str "a"), ("storage", Value.str "local"), ("size", Value.str "10G")])
        "size" = Value.str "20G")
    ∧ [RemoteOp.resizeDisk "rootfs" "20G"]
        <:+: (processLxcDiskChanges sampleSDK
          (Remote.succeeding [("rootfs", Value.str "local:vol-1,size=20G")]) true
          [(Value.str "a", [("key", Value.str "a"), ("storage", Value.str "local"),
            ("size", Value.str "10G")])]
          [(Value.str "a", [("key", Value.str "a"), ("size", Value.str "20G")])]
          (RangeOrder.ofKeys [Value.str "a"] [Value.str "a"])).trace :=
  ⟨by decide,
    (attribute_inheritance sampleSDK
      (Remote.succeeding [("rootfs", Value.str "local:vol-1,size=20G")]) true
      [(Value.str "a", [("key", Value.str "a"), ("storage", Value.str "local"),
        ("size", Value.str "10G")])]
      [(Value.str "a", [("key", Value.str "a"), ("size", Value.str "20G")])]
      (RangeOrder.ofKeys [Value.str "a"] [Value.str "a"]) (Value.str "a")
      [("key", Value.str "a"), ("storage", Value.str "local"), ("size", Value.str "10G")]
      [("key", Value.str "a"), ("size", Value.str "20G")]
      (fun _ => rfl) (by decide) (by decide) rfl rfl (by decide) (by decide) (by decide)
      (by decide)).2.2.2⟩

/-! ## The reserved name -/


theorem toDigitsCore_suffix (base : Nat) (fuel : Nat) :
    ∀ (n : Nat) (ds : List Char), ∃ pre, Nat.toDigitsCore base fuel n ds = pre ++ ds := by
  induction fuel with
  | zero => intro n ds; exact ⟨[], rfl⟩
  | succ f ih =>
    intro n ds
    unfold Nat.toDigitsCore
    simp only []
    by_cases h : n / base = 0
    · rw [if_pos h]; exact ⟨[Nat.digitChar (n % base)], rfl⟩
    · rw [if_neg h]
      obtain ⟨pre, hpre⟩ := ih (n / base) (Nat.digitChar (n % base) :: ds)
      exact ⟨pre ++ [Nat.digitChar (n % base)], by rw [hpre]; simp⟩

theorem toDigits_last (n : Nat) :
    ∃ pre, Nat.toDigits 10 n = pre ++ [Nat.digitChar (n % 10)] := by
  unfold Nat.toDigits Nat.toDigitsCore
  simp only []
  by_cases h : n / 10 = 0
  · rw [if_pos h]; exact ⟨[], rfl⟩
  · rw [if_neg h]
    exact toDigitsCore_suffix 10 n (n / 10) [Nat.digitChar (n % 10)]

theorem digitChar_ne_s (k : Nat) (h : k < 10) : Nat.digitChar k ≠ 's' := by
  interval_cases k <;> decide

theorem Itoa_last (n : Int) :
    ∃ pre k, k < 10 ∧ (Itoa n).data = pre ++ [Nat.digitChar k] := by
  cases n with
  | ofNat m =>
    obtain ⟨pre, hpre⟩ := toDigits_last m
    exact ⟨pre, m % 10, Nat.mod_lt _ (by decide), hpre⟩
  | negSucc m =>
    obtain ⟨pre, hpre⟩ := toDigits_last (m + 1)
    refine ⟨'-' :: pre, (m + 1) % 10, Nat.mod_lt _ (by decide), ?_⟩
    show ("-" ++ Nat.repr (m + 1)).data = _
    rw [String.data_append]
    show ['-'] ++ (Nat.toDigits 10 (m + 1)) = _
    rw [hpre]
    rfl

theorem append_Itoa_ne_rootfs (diskType : String) (n : Int) :
    diskType ++ Itoa n ≠ "rootfs" := by
  intro h
  obtain ⟨pre, k, hk, hdata⟩ := Itoa_last n
  have hd := congrArg String.data h
  rw [String.data_append, hdata, ← List.append_assoc] at hd
  have hlast := congrArg List.getLast? hd
  rw [List.getLast?_append] at hlast
  simp at hlast
  exact digitChar_ne_s k hk hlast

/-- C17: `diskSlotName` returns `rootfs` exactly when the `slot` of the device is
absent or not an integer: with an integer slot, negative ones included, the
name ends in a decimal digit whatever the `type`, so it is never `rootfs`. -/
theorem rootfs_iff_no_integer_slot (disk : QemuDevice) :
    diskSlotName disk = "rootfs" ↔ ∀ n, attr disk "slot" ≠ Value.int n := by
  constructor
  · intro h n hn
    unfold diskSlotName at h
    rw [hn] at h
    exact append_Itoa_ne_rootfs _ n h
  · intro h
    unfold diskSlotName
    cases hs : attr disk "slot" with
    | int n => exact absurd hs (h n)
    | _ => rfl

/-! ## The resize phase -/


theorem filter_isResize_moveCalls (lxc : Bool) (p d : QemuDevice) :
    (moveCalls lxc p d).filter RemoteOp.isResize = [] := by
  unfold moveCalls
  cases attr d "storage" with
  | str s =>
    simp only []
    by_cases h : Value.str s ≠ attr p "storage"
    · rw [if_pos h]; rfl
    · rw [if_neg h]; rfl
  | _ => rfl

theorem filter_isResize_resizeCalls (p d : QemuDevice) (n : String) :
    (resizeCalls p d n).filter RemoteOp.isResize = resizeCalls p d n := by
  unfold resizeCalls
  cases mapLookup d "size" with
  | none => rfl
  | some v =>
    simp only []
    by_cases h : v ≠ attr p "size"
    · rw [if_pos h]; cases v <;> rfl
    · rw [if_neg h]; rfl

theorem resizeCalls_inherit (new : KeyedDeviceMap) (hsize : AttrIsString "size" new)
    (key : Value) (p d : QemuDevice) (hn : mapLookup new key = some d) :
    resizeCalls p (inherit d p) (diskSlotName (inherit d p))
      = (if attr (inherit d p) "size" ≠ attr p "size" then
          some (RemoteOp.resizeDisk (diskSlotName (inherit d p))
            (attr (inherit d p) "size").asString)
        else none).toList := by
  unfold resizeCalls
  cases hv : mapLookup (inherit d p) "size" with
  | none =>
    have h1 : attr (inherit d p) "size" = Value.null := by simp [attr, hv]
    rw [mapLookup_inherit] at hv
    cases h0 : mapLookup d "size" with
    | some w => rw [h0] at hv; cases hv
    | none =>
      rw [h0] at hv
      simp only [] at hv
      have h2 : attr p "size" = Value.null := by simp [attr, hv]
      simp [h1, h2]
  | some v =>
    have h1 : attr (inherit d p) "size" = v := attr_of_lookup _ _ _ hv
    simp only []
    rw [h1]
    by_cases h : v ≠ attr p "size"
    · rw [if_pos h, if_pos h]
      rw [mapLookup_inherit] at hv
      cases h0 : mapLookup d "size" with
      | some w =>
        rw [h0] at hv
        have hwv : w = v := Option.some.inj hv
        subst hwv
        obtain ⟨z, hz⟩ := isStr_of_lookup "size" new hsize key d w hn h0
        subst hz
        rfl
      | none =>
        rw [h0] at hv
        exact absurd (attr_of_lookup p "size" v hv).symm h
    · rw [if_neg h, if_neg h]; rfl

theorem keyCalls_filter_isResize (sdk : SDK) (lxc : Bool) (prev new : KeyedDeviceMap)
    (order : List Value) (hsize : AttrIsString "size" new)
    (hvisit : ∀ e ∈ new, e.1 ∈ order)
    (hdone : (createLoop sdk prev order [] new).1 ≠ none) (key : Value) :
    (keyCalls lxc prev (createLoop sdk prev order [] new).2 key).filter RemoteOp.isResize
      = (expectedResize prev new key).toList := by
  unfold keyCalls expectedResize
  rw [createLoop_lookup sdk prev order key [] new hdone]
  cases hp : mapLookup prev key with
  | none => rfl
  | some p =>
    cases hn : mapLookup new key with
    | none => by_cases hk : key ∈ order <;> simp [hk]
    | some d =>
      have hk : key ∈ order := hvisit (key, d) (mem_of_mapLookup new key d hn)
      rw [if_pos hk]
      simp only [Option.map_some', mergedDevice, hp]
      rw [List.filter_append, filter_isResize_moveCalls, filter_isResize_resizeCalls,
        List.nil_append, resizeCalls_inherit new hsize key p d hn]

/-- C11: in a run in which every remote call succeeds and `FormatDiskParam`
encodes every device the create loop creates, on desired sets whose `size`
entries are strings and whose keys the create loop all visits, the resize calls
are exactly one per visited key that is present in both sets and whose (merged)
desired `size` differs from the previous `size` as a value, hence as a string
character for character; each names the slot-name of the merged desired device
and the desired size string, unchanged. -/
theorem resize_phase (sdk : SDK) (remote : Remote) (lxc : Bool) (prev new : KeyedDeviceMap)
    (order : RangeOrder)
    (hr : ∀ t, remote.fails t = none)
    (hencode : (createLoop sdk prev order.createOrder [] new).1 ≠ none)
    (hsize : AttrIsString "size" new)
    (hvisit : ∀ e ∈ new, e.1 ∈ order.createOrder) :
    (processLxcDiskChanges sdk remote lxc prev new order).trace.filter RemoteOp.isResize
      = order.moveOrder.filterMap (expectedResize prev new) := by
  obtain ⟨params, hparams⟩ := some_of_ne_none _ hencode
  rw [processLxcDiskChanges_success sdk remote hr lxc prev new order hsize params hparams,
    List.filter_append, List.filter_append, List.filter_append,
    filter_flatMap_eq_filterMap _ (expectedResize prev new) RemoteOp.isResize
      (keyCalls_filter_isResize sdk lxc prev new order.createOrder hsize hvisit hencode)]
  have hD : (if deleteDiskKeys prev new order.deleteOrder = [] then []
      else [RemoteOp.deleteDevices lxc
        (", ".intercalate (deleteDiskKeys prev new order.deleteOrder))]).filter
        RemoteOp.isResize = [] := by
    split <;> rfl
  have hS : (if params = [] then [] else [RemoteOp.setDevices lxc params]).filter
        RemoteOp.isResize = [] := by
    split <;> rfl
  rw [hD, hS]
  simp [RemoteOp.isResize]

/-- C11 (witness): previous size `1G`, desired size `1024M`, nothing else changed:
exactly one resize call, with the size string `1024M` as given. -/
theorem resize_phase_witness :
    (processLxcDiskChanges sampleSDK (Remote.succeeding [("mp0", Value.str "local:vol-1")]) true
        [(Value.str "a", [("slot", Value.int 0), ("storage", Value.str "local"),
          ("size", Value.str "1G"), ("volume", Value.str "vol-1")])]
        [(Value.str "a", [("slot", Value.int 0), ("storage", Value.str "local"),
          ("size", Value.str "1024M"), ("volume", Value.str "")])]
        (RangeOrder.ofKeys [Value.str "a"] [Value.str "a"])).trace.filter RemoteOp.isResize
      = [RemoteOp.resizeDisk "mp0" "1024M"] :=
  (resize_phase sampleSDK (Remote.succeeding [("mp0", Value.str "local:vol-1")]) true
      [(Value.str "a", [("slot", Value.int 0), ("storage", Value.str "local"),
        ("size", Value.str "1G"), ("volume", Value.str "vol-1")])]
      [(Value.str "a", [("slot", Value.int 0), ("storage", Value.str "local"),
        ("size", Value.str "1024M"), ("volume", Value.str "")])]
      (RangeOrder.ofKeys [Value.str "a"] [Value.str "a"])
      (fun _ => rfl) (by decide) (by decide) (by decide)).trans (by decide)

/-! ## The size validator, creation keys and moves of deleted slots -/


theorem containsChars_single (c : Char) (s : List Char) :
    containsChars s [c] = decide (c ∈ s) := by
  induction s with
  | nil => rfl
  | cons x s ih =>
    unfold containsChars
    rw [ih]
    by_cases h : c = x
    · subst h; simp [List.isPrefixOf]
    · have h' : (c == x) = false := by simpa using h
      simp [List.isPrefixOf, h, h']

/-- What the `size` validator really tests: it reports no error exactly for the
strings in which one of the letters T, G, M, K occurs somewhere. -/
theorem sizeValidateFunc_accepts_iff (v : String) :
    sizeValidateFunc v = [] ↔ ('T' ∈ v.data ∨ 'G' ∈ v.data ∨ 'M' ∈ v.data ∨ 'K' ∈ v.data) := by
  unfold sizeValidateFunc stringsContains
  have hT : ("T" : String).data = ['T'] := rfl
  have hG : ("G" : String).data = ['G'] := rfl
  have hM : ("M" : String).data = ['M'] := rfl
  have hK : ("K" : String).data = ['K'] := rfl
  rw [hT, hG, hM, hK]
  simp only [containsChars_single]
  by_cases h : 'T' ∈ v.data ∨ 'G' ∈ v.data ∨ 'M' ∈ v.data ∨ 'K' ∈ v.data
  · simp only [h, iff_true]
    rcases h with h | h | h | h <;> simp [h]
  · simp only [h, iff_false]
    have h1 : 'T' ∉ v.data := fun x => h (Or.inl x)
    have h2 : 'G' ∉ v.data := fun x => h (Or.inr (Or.inl x))
    have h3 : 'M' ∉ v.data := fun x => h (Or.inr (Or.inr (Or.inl x)))
    have h4 : 'K' ∉ v.data := fun x => h (Or.inr (Or.inr (Or.inr x)))
    simp [h1, h2, h3, h4]

/-- C14 (the code at the failing input): `10GB` is not of the form
`<positive integer><unit>` and does not even end in a unit letter, yet the
validator reports no error for it; the same holds for `xTy` and `G`.  Of the
four examples only `10` is rejected; `10G` is accepted. -/
theorem size_validator_accepts_malformed :
    (isSizeFormat "10GB" = false ∧ sizeValidateFunc "10GB" = [])
    ∧ (isSizeFormat "xTy" = false ∧ sizeValidateFunc "xTy" = [])
    ∧ (isSizeFormat "G" = false ∧ sizeValidateFunc "G" = [])
    ∧ (isSizeFormat "10" = false
        ∧ sizeValidateFunc "10" = ["disk size must end in T, G, M, or K, got 10"])
    ∧ (isSizeFormat "10G" = true ∧ sizeValidateFunc "10G" = []) := by
  decide

/-- C15 (the code at the failing input): the desired device has no `type` and
inherits `scsi` from the previous device.  The set call creates it under the
key `mp1`, the slot-name of the desired device BEFORE inheritance, while the
merged device, the one encoded in the entry and resized later, has the
slot-name `scsi1`: the resize call names a slot the set call never created. -/
theorem create_key_differs_from_resize_name :
    diskSlotName (inherit [("slot", Value.int 1), ("size", Value.str "20G")]
        [("type", Value.str "scsi"), ("slot", Value.int 0), ("size", Value.str "10G")])
      = "scsi1"
    ∧ (processLxcDiskChanges sampleSDK (Remote.succeeding [("scsi1", Value.str "local:vol-1")])
        false
        [(Value.str "a", [("type", Value.str "scsi"), ("slot", Value.int 0),
          ("size", Value.str "10G")])]
        [(Value.str "a", [("slot", Value.int 1), ("size", Value.str "20G")])]
        (RangeOrder.ofKeys [Value.str "a"] [Value.str "a"])).trace
      = [RemoteOp.deleteDevices false "scsi0",
         RemoteOp.setDevices false [("mp1", "slot,size,type")],
         RemoteOp.resizeDisk "scsi1" "20G", RemoteOp.getConfig] := by
  decide

/-- C16 (the code at the failing input): key `a` changes both its slot (0 to 1)
and its storage (`local` to `nfs`).  The run deletes `mp0`, creates `mp1`, and
then issues the move-disk call for `mp0`, the slot-name the delete call of the
same run named. -/
theorem move_names_deleted_slot :
    (processLxcDiskChanges sampleSDK (Remote.succeeding [("mp1", Value.str "nfs:vol-1")]) true
        [(Value.str "a", [("slot", Value.int 0), ("storage", Value.str "local")])]
        [(Value.str "a", [("slot", Value.int 1), ("storage", Value.str "nfs")])]
        (RangeOrder.ofKeys [Value.str "a"] [Value.str "a"])).trace
      = [RemoteOp.deleteDevices true "mp0",
         RemoteOp.setDevices true [("mp1", "slot,storage")],
         RemoteOp.moveDisk true "mp0" "nfs", RemoteOp.getConfig] := by
  decide

/-! ## Failing calls end the run -/


theorem abortsOnFailure_refl (remote : Remote) (t : List RemoteOp) (r : Result) :
    AbortsOnFailure remote t t r := by
  refine ⟨List.prefix_refl t, ?_⟩
  intro t' op e h1 h2 _
  have l1 := h1.length_le
  have l2 := h2.length_le
  simp at l2
  omega

theorem abortsOnFailure_issue (remote : Remote) (t : List RemoteOp) (op : RemoteOp) :
    AbortsOnFailure remote t (issue remote t op).1 (issue remote t op).2 := by
  rw [issue_eq]
  refine ⟨List.prefix_append t [op], ?_⟩
  intro t' op' e h1 h2 hf
  have l1 := h1.length_le
  have l2 := h2.length_le
  simp at l2
  have hlen : t'.length = t.length := by omega
  have ht : t = t' := h1.eq_of_length hlen.symm
  subst ht
  have hop : t ++ [op'] = t ++ [op] := h2.eq_of_length (by simp)
  have hop' : op' = op := by simpa using hop
  subst hop'
  exact ⟨rfl, by simp only [hf]⟩

theorem abortsOnFailure_trans (remote : Remote) (t0 t1 t2 : List RemoteOp) (r : Result)
    (h1 : AbortsOnFailure remote t0 t1 Result.ok) (h2 : AbortsOnFailure remote t1 t2 r) :
    AbortsOnFailure remote t0 t2 r := by
  refine ⟨h1.1.trans h2.1, ?_⟩
  intro t op e ht hcall hf
  by_cases hlen : (t ++ [op]).length ≤ t1.length
  · have hpre : (t ++ [op]) <+: t1 := List.prefix_of_prefix_length_le hcall h2.1 hlen
    have := (h1.2 t op e ht hpre hf).2
    cases this
  · have hpre : t1 <+: t := by
      apply List.prefix_of_prefix_length_le h2.1 ((List.prefix_append t [op]).trans hcall)
      simp at hlen
      omega
    exact h2.2 t op e hpre hcall hf

theorem abortsOnFailure_moveDisk (remote : Remote) (lxc : Bool) (p d : QemuDevice)
    (t : List RemoteOp) :
    AbortsOnFailure remote t (moveDisk remote lxc p d t).1 (moveDisk remote lxc p d t).2 := by
  unfold moveDisk
  cases attr d "storage" with
  | str s =>
    simp only []
    by_cases h : Value.str s ≠ attr p "storage"
    · rw [if_pos h]; exact abortsOnFailure_issue remote t _
    · rw [if_neg h]; exact abortsOnFailure_refl remote t _
  | _ => exact abortsOnFailure_refl remote t _

theorem abortsOnFailure_processDiskResize (remote : Remote) (p d : QemuDevice) (n : String)
    (t : List RemoteOp) :
    AbortsOnFailure remote t (processDiskResize remote p d n t).1
      (processDiskResize remote p d n t).2 := by
  unfold processDiskResize
  cases mapLookup d "size" with
  | none => exact abortsOnFailure_refl remote t _
  | some v =>
    simp only []
    by_cases h : v ≠ attr p "size"
    · rw [if_pos h]
      cases attr d "size" with
      | str s => exact abortsOnFailure_issue remote t _
      | _ => exact abortsOnFailure_refl remote t _
    · rw [if_neg h]; exact abortsOnFailure_refl remote t _

theorem abortsOnFailure_moveResizeLoop (remote : Remote) (lxc : Bool)
    (prev new : KeyedDeviceMap) (order : List Value) :
    ∀ t, AbortsOnFailure remote t (moveResizeLoop remote lxc prev new order t).1
      (moveResizeLoop remote lxc prev new order t).2 := by
  induction order with
  | nil => intro t; exact abortsOnFailure_refl remote t _
  | cons key rest ih =>
    intro t
    unfold moveResizeLoop
    cases mapLookup prev key with
    | none => exact ih t
    | some p =>
      cases mapLookup new key with
      | none => exact ih t
      | some d =>
        simp only []
        have hm := abortsOnFailure_moveDisk remote lxc p d t
        rcases hmd : moveDisk remote lxc p d t with ⟨t1, r1⟩
        rw [hmd] at hm
        cases r1 with
        | ok =>
          simp only []
          have hz := abortsOnFailure_processDiskResize remote p d (diskSlotName d) t1
          rcases hrd : processDiskResize remote p d (diskSlotName d) t1 with ⟨t2, r2⟩
          rw [hrd] at hz
          cases r2 with
          | ok =>
            simp only []
            exact abortsOnFailure_trans remote t t1 _ _ hm
              (abortsOnFailure_trans remote t1 t2 _ _ hz (ih t2))
          | err e => exact abortsOnFailure_trans remote t t1 _ _ hm hz
          | panicked => exact abortsOnFailure_trans remote t t1 _ _ hm hz
        | err e => exact hm
        | panicked => exact hm


theorem abortsOnFailure_volumePhase (sdk : SDK) (remote : Remote) (order : RangeOrder)
    (s : KeyedDeviceMap) (t : List RemoteOp) :
    AbortsOnFailure remote t (volumePhase sdk remote order s t).trace
      (volumePhase sdk remote order s t).result := by
  have h := abortsOnFailure_issue remote t RemoteOp.getConfig
  unfold volumePhase
  rcases hi : issue remote t RemoteOp.getConfig with ⟨t1, r1⟩
  rw [hi] at h
  cases r1 with
  | ok =>
    simp only []
    refine ⟨h.1, ?_⟩
    intro t' op e h1 h2 hf
    have := (h.2 t' op e h1 h2 hf).2
    cases this
  | err e => exact h
  | panicked => exact h

theorem abortsOnFailure_movePhase (sdk : SDK) (remote : Remote) (lxc : Bool)
    (prev : KeyedDeviceMap) (order : RangeOrder) (s : KeyedDeviceMap) (t : List RemoteOp) :
    AbortsOnFailure remote t (movePhase sdk remote lxc prev order s t).trace
      (movePhase sdk remote lxc prev order s t).result := by
  have h := abortsOnFailure_moveResizeLoop remote lxc prev s order.moveOrder t
  unfold movePhase
  rcases hl : moveResizeLoop remote lxc prev s order.moveOrder t with ⟨t1, r1⟩
  rw [hl] at h
  cases r1 with
  | ok =>
    simp only []
    exact abortsOnFailure_trans remote t t1 _ _ h (abortsOnFailure_volumePhase sdk remote order s t1)
  | err e => exact h
  | panicked => exact h

theorem abortsOnFailure_createPhase (sdk : SDK) (remote : Remote) (lxc : Bool)
    (prev : KeyedDeviceMap) (order : RangeOrder) (new : KeyedDeviceMap) (t : List RemoteOp) :
    AbortsOnFailure remote t (createPhase sdk remote lxc prev order new t).trace
      (createPhase sdk remote lxc prev order new t).result := by
  unfold createPhase
  simp only []
  cases (createLoop sdk prev order.createOrder [] new).1 with
  | none => exact abortsOnFailure_refl remote t _
  | some params =>
    simp only []
    have h : AbortsOnFailure remote t
        (if params.length > 0 then issue remote t (RemoteOp.setDevices lxc params)
        else (t, Result.ok)).1
        (if params.length > 0 then issue remote t (RemoteOp.setDevices lxc params)
        else (t, Result.ok)).2 := by
      split
      · exact abortsOnFailure_issue remote t _
      · exact abortsOnFailure_refl remote t _
    rcases hs : (if params.length > 0 then issue remote t (RemoteOp.setDevices lxc params)
        else (t, Result.ok)) with ⟨t1, r1⟩
    rw [hs] at h
    cases r1 with
    | ok =>
      simp only []
      exact abortsOnFailure_trans remote t t1 _ _ h
        (abortsOnFailure_movePhase sdk remote lxc prev order _ t1)
    | err e => exact h
    | panicked => exact h

theorem abortsOnFailure_processLxcDiskChanges (sdk : SDK) (remote : Remote) (lxc : Bool)
    (prev new : KeyedDeviceMap) (order : RangeOrder) :
    AbortsOnFailure remote [] (processLxcDiskChanges sdk remote lxc prev new order).trace
      (processLxcDiskChanges sdk remote lxc prev new order).result := by
  unfold processLxcDiskChanges
  simp only []
  have h : AbortsOnFailure remote []
      (if (deleteLoop prev new order.deleteOrder []).length > 0 then
        issue remote [] (RemoteOp.deleteDevices lxc
          (", ".intercalate ((deleteLoop prev new order.deleteOrder []).map diskSlotName)))
      else ([], Result.ok)).1
      (if (deleteLoop prev new order.deleteOrder []).length > 0 then
        issue remote [] (RemoteOp.deleteDevices lxc
          (", ".intercalate ((deleteLoop prev new order.deleteOrder []).map diskSlotName)))
      else ([], Result.ok)).2 := by
    split
    · exact abortsOnFailure_issue remote [] _
    · exact abortsOnFailure_refl remote [] _
  rcases hs : (if (deleteLoop prev new order.deleteOrder []).length > 0 then
        issue remote [] (RemoteOp.deleteDevices lxc
          (", ".intercalate ((deleteLoop prev new order.deleteOrder []).map diskSlotName)))
      else ([], Result.ok)) with ⟨t1, r1⟩
  rw [hs] at h
  cases r1 with
  | ok =>
    simp only []
    exact abortsOnFailure_trans remote [] t1 _ _ h
      (abortsOnFailure_createPhase sdk remote lxc prev order new t1)
  | err e => exact h
  | panicked => exact h

/-! ## Abort on first failure -/


theorem volumePhase_fail (sdk : SDK) (remote : Remote) (order : RangeOrder)
    (s : KeyedDeviceMap) (t : List RemoteOp) (e : String)
    (h : remote.fails (t ++ [RemoteOp.getConfig]) = some e) :
    volumePhase sdk remote order s t = ⟨t ++ [RemoteOp.getConfig], Result.err e, s⟩ := by
  unfold volumePhase
  rw [issue_eq, h]

theorem movePhase_reaches (sdk : SDK) (remote : Remote) (lxc : Bool) (prev : KeyedDeviceMap)
    (order : RangeOrder) (s : KeyedDeviceMap) (t : List RemoteOp)
    (ht : RemoteOp.getConfig ∉ t) :
    RemoteOp.getConfig ∉ (movePhase sdk remote lxc prev order s t).trace
      ∨ ∃ tM, RemoteOp.getConfig ∉ tM
          ∧ movePhase sdk remote lxc prev order s t = volumePhase sdk remote order s tM := by
  obtain ⟨M, hM, hMo⟩ := moveResizeLoop_trace remote lxc prev s order.moveOrder t
  have hfree : RemoteOp.getConfig ∉ t ++ M := by
    intro h
    rcases List.mem_append.1 h with h | h
    · exact ht h
    · rcases hMo _ h with h' | h' <;> simp [RemoteOp.isMove, RemoteOp.isResize] at h'
  unfold movePhase
  rcases hl : moveResizeLoop remote lxc prev s order.moveOrder t with ⟨t1, r1⟩
  rw [hl] at hM
  simp only at hM
  subst hM
  cases r1 with
  | ok => exact Or.inr ⟨t ++ M, hfree, rfl⟩
  | err e => exact Or.inl hfree
  | panicked => exact Or.inl hfree

theorem createPhase_reaches (sdk : SDK) (remote : Remote) (lxc : Bool) (prev : KeyedDeviceMap)
    (order : RangeOrder) (new : KeyedDeviceMap) (t : List RemoteOp)
    (ht : RemoteOp.getConfig ∉ t) :
    RemoteOp.getConfig ∉ (createPhase sdk remote lxc prev order new t).trace
      ∨ ∃ tM, RemoteOp.getConfig ∉ tM
          ∧ createPhase sdk remote lxc prev order new t
              = volumePhase sdk remote order (createLoop sdk prev order.createOrder [] new).2 tM := by
  unfold createPhase
  simp only []
  cases (createLoop sdk prev order.createOrder [] new).1 with
  | none => exact Or.inl ht
  | some params =>
    simp only []
    have ht' : RemoteOp.getConfig ∉ t ++ [RemoteOp.setDevices lxc params] := by
      intro h
      rcases List.mem_append.1 h with h | h
      · exact ht h
      · simp at h
    by_cases hlen : params.length > 0
    · rw [if_pos hlen, issue_eq]
      cases remote.fails (t ++ [RemoteOp.setDevices lxc params]) with
      | some e => exact Or.inl ht'
      | none => exact movePhase_reaches sdk remote lxc prev order _ _ ht'
    · rw [if_neg hlen]
      exact movePhase_reaches sdk remote lxc prev order _ _ ht

theorem processLxcDiskChanges_reaches (sdk : SDK) (remote : Remote) (lxc : Bool)
    (prev new : KeyedDeviceMap) (order : RangeOrder) :
    RemoteOp.getConfig ∉ (processLxcDiskChanges sdk remote lxc prev new order).trace
      ∨ ∃ tM, RemoteOp.getConfig ∉ tM
          ∧ processLxcDiskChanges sdk remote lxc prev new order
              = volumePhase sdk remote order (createLoop sdk prev order.createOrder [] new).2 tM := by
  unfold processLxcDiskChanges
  simp only []
  by_cases hlen : (deleteLoop prev new order.deleteOrder []).length > 0
  · rw [if_pos hlen, issue_eq]
    have ht' : RemoteOp.getConfig ∉ ([] : List RemoteOp) ++ [RemoteOp.deleteDevices lxc
        (", ".intercalate ((deleteLoop prev new order.deleteOrder []).map diskSlotName))] := by
      simp
    cases remote.fails ([] ++ [RemoteOp.deleteDevices lxc
        (", ".intercalate ((deleteLoop prev new order.deleteOrder []).map diskSlotName))]) with
    | some e => exact Or.inl ht'
    | none => exact createPhase_reaches sdk remote lxc prev order new _ ht'
  · rw [if_neg hlen]
    exact createPhase_reaches sdk remote lxc prev order new [] (by simp)

/-- C13: on every remote side, if the call `op`, made after the calls `t`, fails
with the error `e`, then the run makes no further call (its trace ends with
`op`) and returns exactly `e`; and if the failing call is the `getConfig` read,
the desired set is left as the create loop left it, no `volume` overwritten
with a remote value. -/
theorem abort_on_first_failure (sdk : SDK) (remote : Remote) (lxc : Bool)
    (prev new : KeyedDeviceMap) (order : RangeOrder) (t : List RemoteOp) (op : RemoteOp)
    (e : String)
    (hcall : (t ++ [op]) <+: (processLxcDiskChanges sdk remote lxc prev new order).trace)
    (hfail : remote.fails (t ++ [op]) = some e) :
    (processLxcDiskChanges sdk remote lxc prev new order).trace = t ++ [op]
    ∧ (processLxcDiskChanges sdk remote lxc prev new order).result = Result.err e
    ∧ (op = RemoteOp.getConfig →
        (processLxcDiskChanges sdk remote lxc prev new order).newDiskSet
          = (createLoop sdk prev order.createOrder [] new).2) := by
  obtain ⟨htrace, hresult⟩ :=
    (abortsOnFailure_processLxcDiskChanges sdk remote lxc prev new order).2 t op e
      List.nil_prefix hcall hfail
  refine ⟨htrace, hresult, ?_⟩
  intro hop
  subst hop
  rcases processLxcDiskChanges_reaches sdk remote lxc prev new order with h | ⟨tM, hfree, hrun⟩
  · exact absurd (by rw [htrace]; simp) h
  · have ht : (volumePhase sdk remote order
        (createLoop sdk prev order.createOrder [] new).2 tM).trace
        = t ++ [RemoteOp.getConfig] := by rw [← hrun]; exact htrace
    rw [volumePhase_trace] at ht
    have htM : tM = t := List.append_inj_left' ht rfl
    subst htM
    rw [hrun, volumePhase_fail sdk remote order _ tM e hfail]

/-- C13 (witness): key `a` changes its slot and the second call of the run, the
set call, fails with `locked`: the run stops after the delete and the set call
and returns `locked`. -/
theorem abort_on_first_failure_witness :
    (processLxcDiskChanges sampleSDK (Remote.failingAt 2 "locked" []) true
        [(Value.str "a", [("slot", Value.int 0), ("storage", Value.str "local")])]
        [(Value.str "a", [("slot", Value.int 1), ("storage", Value.str "nfs")])]
        (RangeOrder.ofKeys [Value.str "a"] [Value.str "a"])).trace
      = [RemoteOp.deleteDevices true "mp0"]
          ++ [RemoteOp.setDevices true [("mp1", "slot,storage")]]
    ∧ (processLxcDiskChanges sampleSDK (Remote.failingAt 2 "locked" []) true
        [(Value.str "a", [("slot", Value.int 0), ("storage", Value.str "local")])]
        [(Value.str "a", [("slot", Value.int 1), ("storage", Value.str "nfs")])]
        (RangeOrder.ofKeys [Value.str "a"] [Value.str "a"])).result
      = Result.err "locked" :=
  ⟨(abort_on_first_failure sampleSDK (Remote.failingAt 2 "locked" []) true
      [(Value.str "a", [("slot", Value.int 0), ("storage", Value.str "local")])]
      [(Value.str "a", [("slot", Value.int 1), ("storage", Value.str "nfs")])]
      (RangeOrder.ofKeys [Value.str "a"] [Value.str "a"])
      [RemoteOp.deleteDevices true "mp0"] (RemoteOp.setDevices true [("mp1", "slot,storage")])
      "locked" (by decide) (by decide)).1,
   (abort_on_first_failure sampleSDK (Remote.failingAt 2 "locked" []) true
      [(Value.str "a", [("slot", Value.int 0), ("storage", Value.str "local")])]
      [(Value.str "a", [("slot", Value.int 1), ("storage", Value.str "nfs")])]
      (RangeOrder.ofKeys [Value.str "a"] [Value.str "a"])
      [RemoteOp.deleteDevices true "mp0"] (RemoteOp.setDevices true [("mp1", "slot,storage")])
      "locked" (by decide) (by decide)).2.1⟩

/-! ## The reconfirmation read -/


theorem attr_mapSet (d : QemuDevice) (k k' : String) (v : Value) :
    attr (mapSet d k v) k' = if k = k' then v else attr d k' := by
  unfold attr
  rw [mapLookup_mapSet]
  by_cases h : k = k' <;> simp [h]

theorem diskSlotName_mapSet_volume (d : QemuDevice) (v : Value) :
    diskSlotName (mapSet d "volume" v) = diskSlotName d := by
  unfold diskSlotName
  rw [attr_mapSet, attr_mapSet, if_neg (by decide), if_neg (by decide)]

theorem volumeLoop_spec (sdk : SDK) (cfg : List (String × Value)) (order : List Value) :
    ∀ (s : KeyedDeviceMap),
      (∀ key d, mapLookup s key = some d → (attr cfg (diskSlotName d)).isStr = true) →
      (volumeLoop sdk cfg order s).2 = Result.ok
      ∧ ∀ key d, mapLookup s key = some d →
          ∃ d', mapLookup (volumeLoop sdk cfg order s).1 key = some d'
            ∧ diskSlotName d' = diskSlotName d
            ∧ ((key ∈ order ∨ attr d "volume" = remoteVolume sdk cfg d) →
                attr d' "volume" = remoteVolume sdk cfg d') := by
  induction order with
  | nil =>
    intro s _
    refine ⟨rfl, ?_⟩
    intro key d hd
    refine ⟨d, hd, rfl, ?_⟩
    rintro (h | h)
    · cases h
    · exact h
  | cons key0 rest ih =>
    intro s hinv
    unfold volumeLoop
    cases h0 : mapLookup s key0 with
    | none =>
      simp only []
      obtain ⟨hok, hall⟩ := ih s hinv
      refine ⟨hok, ?_⟩
      intro key d hd
      obtain ⟨d', hd', hname, hq⟩ := hall key d hd
      refine ⟨d', hd', hname, ?_⟩
      rintro (h | h)
      · rcases List.mem_cons.1 h with h | h
        · subst h; rw [h0] at hd; cases hd
        · exact hq (Or.inl h)
      · exact hq (Or.inr h)
    | some d0 =>
      simp only []
      have hstr := hinv key0 d0 h0
      cases hc : attr cfg (diskSlotName d0) with
      | str z =>
        simp only []
        have hname0 : diskSlotName
            (mapSet d0 "volume" (attr (sdk.ParsePMConf z "volume") "volume"))
            = diskSlotName d0 := diskSlotName_mapSet_volume d0 _
        have hq0 : attr (mapSet d0 "volume" (attr (sdk.ParsePMConf z "volume") "volume"))
            "volume"
            = remoteVolume sdk cfg
                (mapSet d0 "volume" (attr (sdk.ParsePMConf z "volume") "volume")) := by
          rw [attr_mapSet, if_pos rfl]
          unfold remoteVolume
          rw [hname0, hc]
          rfl
        have hinv' : ∀ key d,
            mapLookup (mapSet s key0
              (mapSet d0 "volume" (attr (sdk.ParsePMConf z "volume") "volume"))) key = some d →
            (attr cfg (diskSlotName d)).isStr = true := by
          intro key d hd
          rw [mapLookup_mapSet] at hd
          by_cases hk : key0 = key
          · rw [if_pos hk] at hd
            cases hd
            rw [hname0]
            exact hstr
          · rw [if_neg hk] at hd
            exact hinv key d hd
        obtain ⟨hok, hall⟩ := ih _ hinv'
        refine ⟨hok, ?_⟩
        intro key d hd
        by_cases hk : key0 = key
        · subst hk
          rw [h0] at hd
          cases hd
          obtain ⟨d', hd', hname, hq⟩ := hall key0 _
            (by rw [mapLookup_mapSet, if_pos rfl])
          exact ⟨d', hd', hname.trans hname0, fun _ => hq (Or.inr hq0)⟩
        · obtain ⟨d', hd', hname, hq⟩ := hall key d
            (by rw [mapLookup_mapSet, if_neg hk]; exact hd)
          refine ⟨d', hd', hname, ?_⟩
          rintro (h | h)
          · rcases List.mem_cons.1 h with h | h
            · exact absurd h.symm hk
            · exact hq (Or.inl h)
          · exact hq (Or.inr h)
      | null => rw [hc] at hstr; cases hstr
      | int _ => rw [hc] at hstr; cases hstr
      | bool _ => rw [hc] at hstr; cases hstr

theorem volumePhase_success (sdk : SDK) (remote : Remote) (hr : ∀ t, remote.fails t = none)
    (order : RangeOrder) (s : KeyedDeviceMap) (t : List RemoteOp) :
    volumePhase sdk remote order s t
      = ⟨t ++ [RemoteOp.getConfig],
          (volumeLoop sdk (remote.config (t ++ [RemoteOp.getConfig])) order.volumeOrder s).2,
          (volumeLoop sdk (remote.config (t ++ [RemoteOp.getConfig])) order.volumeOrder s).1⟩ := by
  unfold volumePhase
  rw [issue_success remote hr]


/-- The reconfirmation read on runs without panic: in a run in which every
remote call succeeds and `FormatDiskParam` encodes every device the create loop
creates (desired `size` entries being strings, the volume loop visiting every
desired key, and the configuration read holding a string entry at the slot-name
of every desired device), `getConfig` is read exactly once, as the last call of
the run, after every delete, set, move and resize call; the run ends without
error, and afterwards the `volume` of every desired device is the volume
decoded from the configuration entry at that device's slot-name. -/
theorem reconfirmation (sdk : SDK) (remote : Remote) (lxc : Bool) (prev new : KeyedDeviceMap)
    (order : RangeOrder)
    (hr : ∀ t, remote.fails t = none)
    (hencode : (createLoop sdk prev order.createOrder [] new).1 ≠ none)
    (hsize : AttrIsString "size" new)
    (hvisit : ∀ e ∈ new, e.1 ∈ order.volumeOrder)
    (hcfg : ∀ e ∈ (createLoop sdk prev order.createOrder [] new).2,
      (attr (remote.config (processLxcDiskChanges sdk remote lxc prev new order).trace)
        (diskSlotName e.2)).isStr = true) :
    (∃ pre, (processLxcDiskChanges sdk remote lxc prev new order).trace
        = pre ++ [RemoteOp.getConfig] ∧ RemoteOp.getConfig ∉ pre)
    ∧ (processLxcDiskChanges sdk remote lxc prev new order).result = Result.ok
    ∧ ∀ e ∈ new, ∃ d,
        mapLookup (processLxcDiskChanges sdk remote lxc prev new order).newDiskSet e.1 = some d
        ∧ attr d "volume"
            = remoteVolume sdk
                (remote.config (processLxcDiskChanges sdk remote lxc prev new order).trace) d := by
  obtain ⟨params, hparams⟩ := some_of_ne_none _ hencode
  have htrace := processLxcDiskChanges_success sdk remote hr lxc prev new order hsize
    params hparams
  rcases processLxcDiskChanges_reaches sdk remote lxc prev new order with h | ⟨tM, hfree, hrun⟩
  · exact absurd (by rw [htrace]; simp) h
  · rw [volumePhase_success sdk remote hr] at hrun
    have ht : (processLxcDiskChanges sdk remote lxc prev new order).trace
        = tM ++ [RemoteOp.getConfig] := by rw [hrun]
    rw [ht] at hcfg
    obtain ⟨hok, hall⟩ := volumeLoop_spec sdk (remote.config (tM ++ [RemoteOp.getConfig]))
      order.volumeOrder (createLoop sdk prev order.createOrder [] new).2
      (fun key d hd => hcfg (key, d) (mem_of_mapLookup _ key d hd))
    refine ⟨⟨tM, ht, hfree⟩, by rw [hrun]; exact hok, ?_⟩
    intro e he
    obtain ⟨d0, hd0⟩ := mapLookup_of_mem new e he
    have hcreated : ∃ d1, mapLookup (createLoop sdk prev order.createOrder [] new).2 e.1
        = some d1 := by
      rw [createLoop_lookup sdk prev order.createOrder e.1 [] new hencode, hd0]
      by_cases hk : e.1 ∈ order.createOrder
      · rw [if_pos hk]; exact ⟨_, rfl⟩
      · rw [if_neg hk]; exact ⟨_, rfl⟩
    obtain ⟨d1, hd1⟩ := hcreated
    obtain ⟨d', hd', _, hq⟩ := hall e.1 d1 hd1
    refine ⟨d', by rw [hrun]; exact hd', ?_⟩
    rw [ht]
    exact hq (Or.inl (hvisit e he))

/-- An instance of the reconfirmation read: storage and size of `mp0` change; the
configuration read at the end reports `nfs:vol-2` for `mp0`, and that is the
`volume` of the desired device after the run, whose last call is the only
`getConfig`. -/
theorem reconfirmation_witness :
    (processLxcDiskChanges sampleSDK (Remote.succeeding [("mp0", Value.str "nfs:vol-2")]) true
        [(Value.str "a", [("slot", Value.int 0), ("storage", Value.str "local"),
          ("size", Value.str "10G"), ("volume", Value.str "vol-1")])]
        [(Value.str "a", [("slot", Value.int 0), ("storage", Value.str "nfs"),
          ("size", Value.str "20G"), ("volume", Value.str "")])]
        (RangeOrder.ofKeys [Value.str "a"] [Value.str "a"])).result = Result.ok
    ∧ (processLxcDiskChanges sampleSDK (Remote.succeeding [("mp0", Value.str "nfs:vol-2")]) true
        [(Value.str "a", [("slot", Value.int 0), ("storage", Value.str "local"),
          ("size", Value.str "10G"), ("volume", Value.str "vol-1")])]
        [(Value.str "a", [("slot", Value.int 0), ("storage", Value.str "nfs"),
          ("size", Value.str "20G"), ("volume", Value.str "")])]
        (RangeOrder.ofKeys [Value.str "a"] [Value.str "a"])).newDiskSet
      = [(Value.str "a", [("slot", Value.int 0), ("storage", Value.str "nfs"),
          ("size", Value.str "20G"), ("volume", Value.str "nfs:vol-2")])] :=
  ⟨(reconfirmation sampleSDK (Remote.succeeding [("mp0", Value.str "nfs:vol-2")]) true
      [(Value.str "a", [("slot", Value.int 0), ("storage", Value.str "local"),
        ("size", Value.str "10G"), ("volume", Value.str "vol-1")])]
      [(Value.str "a", [("slot", Value.int 0), ("storage", Value.str "nfs"),
        ("size", Value.str "20G"), ("volume", Value.str "")])]
      (RangeOrder.ofKeys [Value.str "a"] [Value.str "a"])
      (fun _ => rfl) (by decide) (by decide) (by decide) (by decide)).2.1, by decide⟩

/-- C12 (the code at the failing input): two new mount points `mp0` and `mp1`,
every remote call succeeds, and the configuration read holds an entry for `mp1`
but none for `mp0`.  The run makes the set call and the `getConfig` read and
then panics at the unchecked type assertion on the missing `mp0` entry: it
returns no result, and the `volume` of `mp1`, whose entry was found, is not
set.  (A second input: a new device whose size `G` has no digit; the run panics
in `FormatDiskParam` before any remote call, so `getConfig` is never read.) -/
theorem reconfirmation_panics :
    ((processLxcDiskChanges sampleSDK (Remote.succeeding [("mp1", Value.str "local:vol-b")])
        true []
        [(Value.str "a", [("slot", Value.int 0), ("size", Value.str "8G")]),
         (Value.str "b", [("slot", Value.int 1), ("size", Value.str "8G")])]
        (RangeOrder.ofKeys [] [Value.str "a", Value.str "b"])).trace
      = [RemoteOp.setDevices true [("mp0", "slot,size"), ("mp1", "slot,size")],
         RemoteOp.getConfig]
    ∧ (processLxcDiskChanges sampleSDK (Remote.succeeding [("mp1", Value.str "local:vol-b")])
        true []
        [(Value.str "a", [("slot", Value.int 0), ("size", Value.str "8G")]),
         (Value.str "b", [("slot", Value.int 1), ("size", Value.str "8G")])]
        (RangeOrder.ofKeys [] [Value.str "a", Value.str "b"])).result = Result.panicked
    ∧ (processLxcDiskChanges sampleSDK (Remote.succeeding [("mp1", Value.str "local:vol-b")])
        true []
        [(Value.str "a", [("slot", Value.int 0), ("size", Value.str "8G")]),
         (Value.str "b", [("slot", Value.int 1), ("size", Value.str "8G")])]
        (RangeOrder.ofKeys [] [Value.str "a", Value.str "b"])).newDiskSet
      = [(Value.str "a", [("slot", Value.int 0), ("size", Value.str "8G")]),
         (Value.str "b", [("slot", Value.int 1), ("size", Value.str "8G")])]
    ∧ remoteVolume sampleSDK [("mp1", Value.str "local:vol-b")]
        [("slot", Value.int 1), ("size", Value.str "8G")] = Value.str "local:vol-b"
    ∧ attr [("slot", Value.int 1), ("size", Value.str "8G")] "volume" = Value.null)
    ∧ ((processLxcDiskChanges sampleSDK (Remote.succeeding [("mp0", Value.str "local:vol-a")])
        true []
        [(Value.str "a", [("slot", Value.int 0), ("storage", Value.str "local"),
          ("size", Value.str "G")])]
        (RangeOrder.ofKeys [] [Value.str "a"])).trace = []
    ∧ (processLxcDiskChanges sampleSDK (Remote.succeeding [("mp0", Value.str "local:vol-a")])
        true []
        [(Value.str "a", [("slot", Value.int 0), ("storage", Value.str "local"),
          ("size", Value.str "G")])]
        (RangeOrder.ofKeys [] [Value.str "a"])).result = Result.panicked) := by
  decide

end Proxmox
